import Mathlib

set_option maxHeartbeats 1000000

/- Formal model of the `evony` game server's simulation core
   (`app/game/tick.py`): resource production curves, storage caps and
   protected floors, proportional raid looting, combat resolution, the
   raid state machine and the event-time tick driver.

   Modelling conventions:
   * timestamps are integer seconds (the Python code uses naive UTC
     `datetime`s and whole-second arithmetic);
   * Python machine floats are modelled as exact rationals (`ℚ`); the
     storage fraction `0.25 + 0.02*(wh-1)` is represented exactly in
     hundredths;
   * SQLAlchemy rows become Lean structures, the session becomes an
     explicit `WorldState` record of row lists in insertion order, and
     attribute assignment on an ORM row becomes an update of the rows
     with the row's primary key. -/

namespace Evony

/-- The four resource kinds of the game. -/
inductive Res
  | food
  | wood
  | stone
  | iron
deriving DecidableEq

/-- A per-resource map of non-negative integer amounts (a Python dict
`{"food": _, "wood": _, "stone": _, "iron": _}` of ints). -/
structure ResAmounts where
  food : Nat
  wood : Nat
  stone : Nat
  iron : Nat
deriving DecidableEq

def ResAmounts.get (a : ResAmounts) : Res → Nat
  | .food => a.food
  | .wood => a.wood
  | .stone => a.stone
  | .iron => a.iron

def ResAmounts.set (a : ResAmounts) : Res → Nat → ResAmounts
  | .food, v => { a with food := v }
  | .wood, v => { a with wood := v }
  | .stone, v => { a with stone := v }
  | .iron, v => { a with iron := v }

/-- `sum(d.values())` for a per-resource map. -/
def sumRes (a : ResAmounts) : Nat := a.food + a.wood + a.stone + a.iron

/-- One `buildings` row: `(city_id, type, level)`. -/
structure Building where
  city_id : Nat
  btype : String
  level : Int
deriving DecidableEq

/-- `levels.get(t, 1)` over the Python dict `{b.type: b.level}` built from
the city's building rows; a later row overwrites an earlier one with the
same type, hence the `reverse` before `find?`. -/
def levelOf (bs : List Building) (cid : Nat) (t : String) : Int :=
  match (bs.filter (fun b => b.city_id == cid)).reverse.find? (fun b => b.btype == t) with
  | some b => b.level
  | none => 1

/-- `curve(base, linear, quad, lvl)` from `_recalc_rates_for_city`:
`base + linear*(lvl-1) + quad*(lvl-1)^2` with the `(lvl-1)` floored at 0. -/
def curve (base linear quad lvl : Int) : Int :=
  let x := max 0 (lvl - 1)
  base + linear * x + quad * (x * x)

structure Rates where
  food_rate : Int
  wood_rate : Int
  stone_rate : Int
  iron_rate : Int
deriving DecidableEq

/-- `_recalc_rates_for_city(db, city_id)`. -/
def recalc_rates_for_city (bs : List Building) (cid : Nat) : Rates :=
  { food_rate := max 0 (curve 30 8 2 (levelOf bs cid "farm"))
    wood_rate := max 0 (curve 30 8 2 (levelOf bs cid "sawmill"))
    stone_rate := max 0 (curve 20 3 1 (levelOf bs cid "quarry"))
    iron_rate := max 0 (curve 10 2 1 (levelOf bs cid "ironmine")) }

structure Storage where
  max_food : Int
  max_wood : Int
  max_stone : Int
  max_iron : Int
  protected_food : Int
  protected_wood : Int
  protected_stone : Int
  protected_iron : Int
deriving DecidableEq

/-- `_recalc_storage_for_city(db, city_id)`.  The protected fraction
`0.25 + (wh-1)*0.02`, clamped to `[0.25, 0.40]`, is represented exactly as
a number of hundredths `pct`; Python's `int(max * fraction)` truncates
towards zero, which is `Int.tdiv` (`pct` is positive, so this is also the
floor for non-negative caps). -/
def recalc_storage_for_city (bs : List Building) (cid : Nat) : Storage :=
  let wh := levelOf bs cid "warehouse"
  let mf := 5000 + wh * 2000
  let mw := 5000 + wh * 2000
  let ms := 3000 + wh * 1200
  let mi := 2000 + wh * 800
  let pct := min 40 (max 25 (25 + (wh - 1) * 2))
  { max_food := mf, max_wood := mw, max_stone := ms, max_iron := mi
    protected_food := Int.tdiv (mf * pct) 100
    protected_wood := Int.tdiv (mw * pct) 100
    protected_stone := Int.tdiv (ms * pct) 100
    protected_iron := Int.tdiv (mi * pct) 100 }

/-- One `cities` row (the columns touched by the tick engine). -/
structure City where
  id : Nat
  townhall_level : Int
  food : Int
  wood : Int
  stone : Int
  iron : Int
  max_food : Int
  max_wood : Int
  max_stone : Int
  max_iron : Int
  protected_food : Int
  protected_wood : Int
  protected_stone : Int
  protected_iron : Int
  last_tick_at : Option Int
  food_rate : Int
  wood_rate : Int
  stone_rate : Int
  iron_rate : Int
deriving DecidableEq

/-- `apply_city_tick(city, now, db) -> minutes`.
`(now - last).total_seconds() // 60` is floor division, i.e. `Int.fdiv`;
`city.last_tick_at or now` is the `getD`; `timedelta(minutes=minutes)` is
`60 * minutes` seconds. -/
def apply_city_tick (bs : List Building) (city : City) (now : Int) : City × Int :=
  let last := city.last_tick_at.getD now
  let minutes := Int.fdiv (now - last) 60
  if minutes ≤ 0 then (city, 0)
  else
    let r := recalc_rates_for_city bs city.id
    let s := recalc_storage_for_city bs city.id
    ({ city with
        food_rate := r.food_rate, wood_rate := r.wood_rate
        stone_rate := r.stone_rate, iron_rate := r.iron_rate
        max_food := s.max_food, max_wood := s.max_wood
        max_stone := s.max_stone, max_iron := s.max_iron
        protected_food := s.protected_food, protected_wood := s.protected_wood
        protected_stone := s.protected_stone, protected_iron := s.protected_iron
        food := min (city.food + r.food_rate * minutes) s.max_food
        wood := min (city.wood + r.wood_rate * minutes) s.max_wood
        stone := min (city.stone + r.stone_rate * minutes) s.max_stone
        iron := min (city.iron + r.iron_rate * minutes) s.max_iron
        last_tick_at := some (last + 60 * minutes) },
      minutes)

/-- `_lootable(city)`: `max(0, stock - protected)` per resource
(`Int.toNat` is exactly `max 0` for the difference). -/
def lootable (city : City) : ResAmounts :=
  { food := (city.food - city.protected_food).toNat
    wood := (city.wood - city.protected_wood).toNat
    stone := (city.stone - city.protected_stone).toNat
    iron := (city.iron - city.protected_iron).toNat }

/-- Rank of each dict key in ascending Python-string order
("food" < "iron" < "stone" < "wood"); `remainders.sort(reverse=True)`
compares the `(remainder, key)` tuples, so a tie in the fractional
remainder is broken by the larger key string first. -/
def keyRank : Res → Nat
  | .food => 0
  | .iron => 1
  | .stone => 2
  | .wood => 3

/-- Descending tuple order used by `remainders.sort(reverse=True)`:
`k₁` comes (weakly) before `k₂`. -/
def remBefore (remNum : Res → Nat) (k₁ k₂ : Res) : Prop :=
  remNum k₂ < remNum k₁ ∨ (remNum k₁ = remNum k₂ ∧ keyRank k₂ ≤ keyRank k₁)

instance (remNum : Res → Nat) : DecidableRel (remBefore remNum) := fun k₁ k₂ =>
  inferInstanceAs (Decidable (remNum k₂ < remNum k₁ ∨ (remNum k₁ = remNum k₂ ∧ keyRank k₂ ≤ keyRank k₁)))

/-- One traversal of the sorted remainder list, i.e. the body of the
`while left > 0` loop: `for _, k in remainders: if left <= 0: break;
if taken[k] < loot[k]: taken[k] += 1; left -= 1; progressed = True`. -/
def sweep (loot : ResAmounts) : List Res → ResAmounts → Nat → Bool → ResAmounts × Nat × Bool
  | [], taken, left, progressed => (taken, left, progressed)
  | k :: ks, taken, left, progressed =>
    if left = 0 then (taken, left, progressed)
    else if taken.get k < loot.get k then
      sweep loot ks (taken.set k (taken.get k + 1)) (left - 1) true
    else sweep loot ks taken left progressed

/-- The `while left > 0` loop of `_proportional_take`.  `fuel` bounds the
number of traversals; every productive traversal strictly decreases
`left` and the loop stops as soon as a traversal makes no progress, so
`fuel = left` suffices (proved below). -/
def distribute (loot : ResAmounts) (order : List Res) : Nat → ResAmounts → Nat → ResAmounts
  | 0, taken, _ => taken
  | fuel + 1, taken, left =>
    if left = 0 then taken
    else
      match sweep loot order taken left false with
      | (taken₂, left₂, true) => distribute loot order fuel taken₂ left₂
      | (taken₂, _, false) => taken₂

/-- The floored proportional base allocation of `_proportional_take`:
for each key, `base = int(exact)` clamped by `min(base, loot[k])`, where
the exact share `(loot[k] / total) * take_total` is the rational
`loot[k] * take_total / total` and `int` of it is its floor, i.e. `Nat`
division. -/
def baseTake (loot : ResAmounts) (takeTotal : Nat) : ResAmounts :=
  let total := sumRes loot
  let base : Res → Nat := fun k => min (loot.get k * takeTotal / total) (loot.get k)
  ⟨base .food, base .wood, base .stone, base .iron⟩

/-- `_proportional_take(loot, capacity)`.  The fractional remainders
`exact - base` all have the same positive denominator `total`, so the
sort compares their numerators `loot[k] * take_total % total`. -/
def proportional_take (loot : ResAmounts) (capacity : Int) : ResAmounts :=
  let total := sumRes loot
  if total = 0 ∨ capacity ≤ 0 then ⟨0, 0, 0, 0⟩
  else
    let takeTotal := min capacity.toNat total
    let taken := baseTake loot takeTotal
    let left := takeTotal - sumRes taken
    let remNum : Res → Nat := fun k => loot.get k * takeTotal % total
    let order := List.insertionSort (remBefore remNum) [Res.food, Res.wood, Res.stone, Res.iron]
    distribute loot order left taken left

/-! ### Lemmas about the largest-remainder distribution -/

theorem sumRes_set_succ (a : ResAmounts) (k : Res) :
    sumRes (a.set k (a.get k + 1)) = sumRes a + 1 := by
  cases k <;> simp [ResAmounts.set, ResAmounts.get, sumRes] <;> omega

theorem get_set_self (a : ResAmounts) (k : Res) (v : Nat) : (a.set k v).get k = v := by
  cases k <;> rfl

theorem get_set_ne (a : ResAmounts) (k j : Res) (v : Nat) (h : j ≠ k) :
    (a.set k v).get j = a.get j := by
  cases k <;> cases j <;> simp_all [ResAmounts.set, ResAmounts.get]

theorem sumRes_eq_gets (a : ResAmounts) :
    sumRes a = a.get .food + a.get .wood + a.get .stone + a.get .iron := rfl

theorem sweep_sum (loot : ResAmounts) :
    ∀ (ks : List Res) (taken : ResAmounts) (left : Nat) (prog : Bool),
      sumRes (sweep loot ks taken left prog).1 + (sweep loot ks taken left prog).2.1
        = sumRes taken + left := by
  intro ks
  induction ks with
  | nil => intro taken left prog; simp [sweep]
  | cons k ks ih =>
    intro taken left prog
    by_cases h0 : left = 0
    · simp [sweep, h0]
    · by_cases h1 : taken.get k < loot.get k
      · simp only [sweep, if_neg h0, if_pos h1]
        rw [ih, sumRes_set_succ]
        omega
      · simp only [sweep, if_neg h0, if_neg h1]
        exact ih _ _ _

theorem sweep_bounded (loot : ResAmounts) :
    ∀ (ks : List Res) (taken : ResAmounts) (left : Nat) (prog : Bool),
      (∀ j, taken.get j ≤ loot.get j) →
      ∀ j, (sweep loot ks taken left prog).1.get j ≤ loot.get j := by
  intro ks
  induction ks with
  | nil => intro taken left prog hb j; simpa [sweep] using hb j
  | cons k ks ih =>
    intro taken left prog hb j
    by_cases h0 : left = 0
    · simpa [sweep, h0] using hb j
    · by_cases h1 : taken.get k < loot.get k
      · simp only [sweep, if_neg h0, if_pos h1]
        refine ih _ _ _ ?_ j
        intro j'
        rcases eq_or_ne j' k with rfl | hne
        · rw [get_set_self]; omega
        · rw [get_set_ne _ _ _ _ hne]; exact hb j'
      · simp only [sweep, if_neg h0, if_neg h1]
        exact ih _ _ _ hb j

theorem sweep_left_le (loot : ResAmounts) :
    ∀ (ks : List Res) (taken : ResAmounts) (left : Nat) (prog : Bool),
      (sweep loot ks taken left prog).2.1 ≤ left := by
  intro ks
  induction ks with
  | nil => intro taken left prog; simp [sweep]
  | cons k ks ih =>
    intro taken left prog
    by_cases h0 : left = 0
    · simp [sweep, h0]
    · by_cases h1 : taken.get k < loot.get k
      · simp only [sweep, if_neg h0, if_pos h1]
        exact le_trans (ih _ _ _) (by omega)
      · simp only [sweep, if_neg h0, if_neg h1]
        exact ih _ _ _

theorem sweep_no_progress (loot : ResAmounts) :
    ∀ (ks : List Res) (taken : ResAmounts) (left : Nat),
      (sweep loot ks taken left false).2.2 = false →
      (sweep loot ks taken left false).1 = taken ∧ (sweep loot ks taken left false).2.1 = left
        ∧ (left ≠ 0 → ∀ k ∈ ks, loot.get k ≤ taken.get k) := by
  intro ks
  induction ks with
  | nil => intro taken left _; simp [sweep]
  | cons k ks ih =>
    intro taken left hnp
    by_cases h0 : left = 0
    · simp [sweep, h0]
    · by_cases h1 : taken.get k < loot.get k
      · exfalso
        simp only [sweep, if_neg h0, if_pos h1] at hnp
        -- once progress is made the flag stays true
        have mono : ∀ (ks' : List Res) (t : ResAmounts) (l : Nat),
            (sweep loot ks' t l true).2.2 = true := by
          intro ks'
          induction ks' with
          | nil => intro t l; simp [sweep]
          | cons k' ks' ih' =>
            intro t l
            by_cases g0 : l = 0
            · simp [sweep, g0]
            · by_cases g1 : t.get k' < loot.get k'
              · simp only [sweep, if_neg g0, if_pos g1]; exact ih' _ _
              · simp only [sweep, if_neg g0, if_neg g1]; exact ih' _ _
        rw [mono] at hnp
        exact Bool.true_eq_false.mp hnp
      · simp only [sweep, if_neg h0, if_neg h1] at hnp ⊢
        obtain ⟨e1, e2, e3⟩ := ih taken left hnp
        refine ⟨e1, e2, fun hl j hj => ?_⟩
        rcases List.mem_cons.mp hj with rfl | hj'
        · omega
        · exact e3 hl j hj'

theorem sweep_progress_lt (loot : ResAmounts) :
    ∀ (ks : List Res) (taken : ResAmounts) (left : Nat),
      (sweep loot ks taken left false).2.2 = true →
      (sweep loot ks taken left false).2.1 < left := by
  intro ks
  induction ks with
  | nil => intro taken left h; simp [sweep] at h
  | cons k ks ih =>
    intro taken left hp
    by_cases h0 : left = 0
    · simp [sweep, h0] at hp
    · by_cases h1 : taken.get k < loot.get k
      · simp only [sweep, if_neg h0, if_pos h1] at hp ⊢
        have := sweep_left_le loot ks (taken.set k (taken.get k + 1)) (left - 1) true
        omega
      · simp only [sweep, if_neg h0, if_neg h1] at hp ⊢
        exact ih _ _ hp

theorem distribute_spec (loot : ResAmounts) (order : List Res)
    (hord : ∀ k : Res, k ∈ order) (T : Nat) (hT : T ≤ sumRes loot) :
    ∀ (fuel : Nat) (taken : ResAmounts) (left : Nat), left ≤ fuel →
      sumRes taken + left = T → (∀ k, taken.get k ≤ loot.get k) →
      sumRes (distribute loot order fuel taken left) = T
        ∧ ∀ k, (distribute loot order fuel taken left).get k ≤ loot.get k := by
  intro fuel
  induction fuel with
  | zero =>
    intro taken left hle hsum hb
    have : left = 0 := Nat.le_zero.mp hle
    subst this
    simpa [distribute] using ⟨by omega, hb⟩
  | succ fuel ih =>
    intro taken left hle hsum hb
    by_cases h0 : left = 0
    · subst h0
      simpa [distribute] using ⟨by omega, hb⟩
    · simp only [distribute, if_neg h0]
      rcases hsw : sweep loot order taken left false with ⟨taken₂, left₂, p⟩
      have hsum₂ := sweep_sum loot order taken left false
      have hb₂ := sweep_bounded loot order taken left false hb
      rw [hsw] at hsum₂ hb₂
      cases p with
      | true =>
        have hlt := sweep_progress_lt loot order taken left
        rw [hsw] at hlt
        simp only at hlt ⊢
        have hlt₂ : left₂ < left := by
          refine hlt ?_
          first
          | exact rfl
          | trivial
        exact ih taken₂ left₂ (by omega) (by simpa [hsum] using hsum₂) hb₂
      | false =>
        exfalso
        have hnp := sweep_no_progress loot order taken left
        rw [hsw] at hnp
        obtain ⟨e1, e2, e3⟩ := hnp rfl
        have hall : ∀ k : Res, loot.get k ≤ taken.get k := fun k => e3 h0 k (hord k)
        have : sumRes taken = sumRes loot := by
          rw [sumRes_eq_gets taken, sumRes_eq_gets loot]
          have f := hall Res.food; have fb := hb Res.food
          have w := hall Res.wood; have wb := hb Res.wood
          have s := hall Res.stone; have sb := hb Res.stone
          have i := hall Res.iron; have ib := hb Res.iron
          omega
        omega

theorem nat_add_div_le (a b d : Nat) : a / d + b / d ≤ (a + b) / d := by
  rcases Nat.eq_zero_or_pos d with h | h
  · subst h; simp
  · rw [Nat.le_div_iff_mul_le h, Nat.add_mul]
    exact Nat.add_le_add (Nat.div_mul_le_self a d) (Nat.div_mul_le_self b d)

theorem mem_sort_order (remNum : Res → Nat) (k : Res) :
    k ∈ List.insertionSort (remBefore remNum) [Res.food, Res.wood, Res.stone, Res.iron] := by
  rw [List.mem_insertionSort]
  cases k <;> simp

theorem baseTake_get (loot : ResAmounts) (tt : Nat) (k : Res) :
    (baseTake loot tt).get k = min (loot.get k * tt / sumRes loot) (loot.get k) := by
  cases k <;> rfl

theorem sumRes_baseTake_le (loot : ResAmounts) (tt : Nat) (htot : 0 < sumRes loot) :
    sumRes (baseTake loot tt) ≤ tt := by
  rw [sumRes_eq_gets]
  simp only [baseTake_get]
  have m1 : min (loot.get Res.food * tt / sumRes loot) (loot.get Res.food)
      ≤ loot.get Res.food * tt / sumRes loot := min_le_left _ _
  have m2 : min (loot.get Res.wood * tt / sumRes loot) (loot.get Res.wood)
      ≤ loot.get Res.wood * tt / sumRes loot := min_le_left _ _
  have m3 : min (loot.get Res.stone * tt / sumRes loot) (loot.get Res.stone)
      ≤ loot.get Res.stone * tt / sumRes loot := min_le_left _ _
  have m4 : min (loot.get Res.iron * tt / sumRes loot) (loot.get Res.iron)
      ≤ loot.get Res.iron * tt / sumRes loot := min_le_left _ _
  have s1 := nat_add_div_le (loot.get Res.food * tt) (loot.get Res.wood * tt) (sumRes loot)
  have s2 := nat_add_div_le (loot.get Res.food * tt + loot.get Res.wood * tt)
    (loot.get Res.stone * tt) (sumRes loot)
  have s3 := nat_add_div_le
    (loot.get Res.food * tt + loot.get Res.wood * tt + loot.get Res.stone * tt)
    (loot.get Res.iron * tt) (sumRes loot)
  have key : loot.get Res.food * tt + loot.get Res.wood * tt + loot.get Res.stone * tt
      + loot.get Res.iron * tt = sumRes loot * tt := by
    rw [sumRes_eq_gets]; ring
  rw [key, Nat.mul_div_cancel_left _ htot] at s3
  omega

theorem proportional_take_spec (loot : ResAmounts) (capacity : Int) (hc : 0 ≤ capacity) :
    sumRes (proportional_take loot capacity) = min capacity.toNat (sumRes loot)
      ∧ ∀ k, (proportional_take loot capacity).get k ≤ loot.get k := by
  simp only [proportional_take]
  by_cases h : sumRes loot = 0 ∨ capacity ≤ 0
  · rw [if_pos h]
    constructor
    · rcases h with h | h
      · simp only [sumRes] at h ⊢
        omega
      · have hc0 : capacity = 0 := le_antisymm h hc
        subst hc0
        simp [sumRes]
    · intro k; cases k <;> simp [ResAmounts.get]
  · rw [if_neg h]
    push_neg at h
    obtain ⟨h1, _⟩ := h
    have htot : 0 < sumRes loot := Nat.pos_of_ne_zero h1
    have hbl := sumRes_baseTake_le loot (min capacity.toNat (sumRes loot)) htot
    exact distribute_spec loot
      (List.insertionSort
        (remBefore fun k => loot.get k * min capacity.toNat (sumRes loot) % sumRes loot)
        [Res.food, Res.wood, Res.stone, Res.iron])
      (mem_sort_order _)
      (min capacity.toNat (sumRes loot)) (min_le_right _ _)
      (min capacity.toNat (sumRes loot) - sumRes (baseTake loot (min capacity.toNat (sumRes loot))))
      (baseTake loot (min capacity.toNat (sumRes loot)))
      (min capacity.toNat (sumRes loot) - sumRes (baseTake loot (min capacity.toNat (sumRes loot))))
      le_rfl (by omega)
      (fun k => by rw [baseTake_get]; exact min_le_right _ _)

/-- **C2**: for every per-resource lootable map of the four resources and
every capacity ≥ 0, the components of `_proportional_take(lootable,
capacity)` sum to exactly `min(capacity, sum(lootable))` and no component
exceeds its lootable amount; in particular, for lootable
`{food: 100, wood: 50, stone: 0, iron: 0}` and capacity 60 the result is
exactly `{food: 40, wood: 20, stone: 0, iron: 0}`. -/
theorem claim_C2_proportional_take_conservation (loot : ResAmounts) (capacity : Int)
    (hc : 0 ≤ capacity) :
    (sumRes (proportional_take loot capacity) = min capacity.toNat (sumRes loot)
      ∧ ∀ k, (proportional_take loot capacity).get k ≤ loot.get k)
    ∧ proportional_take ⟨100, 50, 0, 0⟩ 60 = ⟨40, 20, 0, 0⟩ :=
  ⟨proportional_take_spec loot capacity hc, by decide⟩

/-- Witness for C2 at the concrete lootable `{3, 1, 1, 0}` and capacity 4. -/
theorem claim_C2_witness :
    (0 : Int) ≤ 4
    ∧ ((sumRes (proportional_take ⟨3, 1, 1, 0⟩ 4) = min (Int.toNat 4) (sumRes ⟨3, 1, 1, 0⟩)
        ∧ ∀ k, (proportional_take ⟨3, 1, 1, 0⟩ 4).get k ≤ ResAmounts.get ⟨3, 1, 1, 0⟩ k)
      ∧ proportional_take ⟨100, 50, 0, 0⟩ 60 = ⟨40, 20, 0, 0⟩) :=
  ⟨by decide, claim_C2_proportional_take_conservation ⟨3, 1, 1, 0⟩ 4 (by decide)⟩

/-! ### City production (C4) -/

theorem fdiv_sub_sixty_mul (x : Int) :
    Int.fdiv (x - 60 * Int.fdiv x 60) 60 = 0 := by
  rw [Int.fdiv_eq_ediv x (by norm_num), Int.fdiv_eq_ediv _ (by norm_num)]
  have h : x - 60 * (x / 60) = x % 60 := by rw [Int.emod_def]
  rw [h]
  exact Int.ediv_eq_zero_of_lt (Int.emod_nonneg x (by norm_num))
    (Int.emod_lt_of_pos x (by norm_num))

/-- The statement of C4 for one city: with `last_tick_at = some last ≤ now`
and `m = ⌊(now - last) / 60⌋` whole minutes, `apply_city_tick` returns
exactly `m`, advances `last_tick_at` by exactly `60 * m` seconds (keeping
the fractional remainder), applies `stock += rate * m` clamped to the
recomputed caps when `m ≥ 1` and changes nothing when `m = 0`, and a
second call at the same target time is a no-op returning 0 minutes. -/
def cityTickPost (bs : List Building) (city : City) (now last : Int) : Prop :=
  (apply_city_tick bs city now).2 = Int.fdiv (now - last) 60
  ∧ (apply_city_tick bs city now).1.last_tick_at
      = some (last + 60 * Int.fdiv (now - last) 60)
  ∧ (Int.fdiv (now - last) 60 = 0 → (apply_city_tick bs city now).1 = city)
  ∧ (1 ≤ Int.fdiv (now - last) 60 →
      ((apply_city_tick bs city now).1.food
          = min (city.food + (recalc_rates_for_city bs city.id).food_rate
              * Int.fdiv (now - last) 60)
            (recalc_storage_for_city bs city.id).max_food
        ∧ (apply_city_tick bs city now).1.wood
          = min (city.wood + (recalc_rates_for_city bs city.id).wood_rate
              * Int.fdiv (now - last) 60)
            (recalc_storage_for_city bs city.id).max_wood
        ∧ (apply_city_tick bs city now).1.stone
          = min (city.stone + (recalc_rates_for_city bs city.id).stone_rate
              * Int.fdiv (now - last) 60)
            (recalc_storage_for_city bs city.id).max_stone
        ∧ (apply_city_tick bs city now).1.iron
          = min (city.iron + (recalc_rates_for_city bs city.id).iron_rate
              * Int.fdiv (now - last) 60)
            (recalc_storage_for_city bs city.id).max_iron))
  ∧ apply_city_tick bs (apply_city_tick bs city now).1 now
      = ((apply_city_tick bs city now).1, 0)

/-- **C4**: for every city whose `last_tick_at` is set and every target
time `now` (not before it), `apply_city_tick` applies
`stock += rate * minutes` clamped to the storage cap with
`minutes = floor(elapsed_seconds / 60)`, advances `last_tick_at` by
exactly that many whole minutes (retaining fractional seconds), returns
the minutes applied, and a second call with the same target time returns
0 and changes nothing. -/
theorem claim_C4_apply_city_tick (bs : List Building) (city : City) (now last : Int)
    (hset : city.last_tick_at = some last) (hle : last ≤ now) :
    cityTickPost bs city now last := by
  have hm0 : 0 ≤ Int.fdiv (now - last) 60 := Int.fdiv_nonneg (by omega) (by norm_num)
  unfold cityTickPost
  rcases eq_or_lt_of_le hm0 with hz | hpos
  · -- zero whole minutes: the call is a no-op, and so is the repeat
    have hout : apply_city_tick bs city now = (city, 0) := by
      simp only [apply_city_tick, hset, Option.getD_some]
      rw [if_pos (by omega)]
    rw [hout]
    refine ⟨hz, ?_, fun _ => rfl, fun h1 => absurd h1 (by omega), hout⟩
    rw [hset, ← hz]
    norm_num
  · -- at least one whole minute
    have hout : apply_city_tick bs city now =
        ({ city with
            food_rate := (recalc_rates_for_city bs city.id).food_rate
            wood_rate := (recalc_rates_for_city bs city.id).wood_rate
            stone_rate := (recalc_rates_for_city bs city.id).stone_rate
            iron_rate := (recalc_rates_for_city bs city.id).iron_rate
            max_food := (recalc_storage_for_city bs city.id).max_food
            max_wood := (recalc_storage_for_city bs city.id).max_wood
            max_stone := (recalc_storage_for_city bs city.id).max_stone
            max_iron := (recalc_storage_for_city bs city.id).max_iron
            protected_food := (recalc_storage_for_city bs city.id).protected_food
            protected_wood := (recalc_storage_for_city bs city.id).protected_wood
            protected_stone := (recalc_storage_for_city bs city.id).protected_stone
            protected_iron := (recalc_storage_for_city bs city.id).protected_iron
            food := min (city.food + (recalc_rates_for_city bs city.id).food_rate
                * Int.fdiv (now - last) 60)
              (recalc_storage_for_city bs city.id).max_food
            wood := min (city.wood + (recalc_rates_for_city bs city.id).wood_rate
                * Int.fdiv (now - last) 60)
              (recalc_storage_for_city bs city.id).max_wood
            stone := min (city.stone + (recalc_rates_for_city bs city.id).stone_rate
                * Int.fdiv (now - last) 60)
              (recalc_storage_for_city bs city.id).max_stone
            iron := min (city.iron + (recalc_rates_for_city bs city.id).iron_rate
                * Int.fdiv (now - last) 60)
              (recalc_storage_for_city bs city.id).max_iron
            last_tick_at := some (last + 60 * Int.fdiv (now - last) 60) },
          Int.fdiv (now - last) 60) := by
      simp only [apply_city_tick, hset, Option.getD_some]
      rw [if_neg (by omega)]
    have hsecond : apply_city_tick bs (apply_city_tick bs city now).1 now
        = ((apply_city_tick bs city now).1, 0) := by
      rw [hout]
      simp only [apply_city_tick, Option.getD_some]
      rw [if_pos ?_]
      have h2 : now - (last + 60 * Int.fdiv (now - last) 60)
          = (now - last) - 60 * Int.fdiv (now - last) 60 := by ring
      rw [h2, fdiv_sub_sixty_mul (now - last)]
    refine ⟨?_, ?_, fun h0 => absurd h0 (by omega), fun _ => ?_, hsecond⟩
    · rw [hout]
    · rw [hout]
    · rw [hout]
      exact ⟨rfl, rfl, rfl, rfl⟩

/-- Witness for C4: a fresh city (empty building list, so level-1 curves)
ticked from `last_tick_at = 0` to `now = 125`, i.e. 2 whole minutes. -/
theorem claim_C4_witness :
    ((⟨1, 1, 500, 500, 500, 500, 7000, 7000, 4200, 2800, 1890, 1890, 1134, 756,
        some 0, 30, 30, 20, 10⟩ : City).last_tick_at = some 0 ∧ (0 : Int) ≤ 125)
    ∧ cityTickPost []
        ⟨1, 1, 500, 500, 500, 500, 7000, 7000, 4200, 2800, 1890, 1890, 1134, 756,
          some 0, 30, 30, 20, 10⟩ 125 0 :=
  ⟨⟨rfl, by decide⟩,
    claim_C4_apply_city_tick []
      ⟨1, 1, 500, 500, 500, 500, 7000, 7000, 4200, 2800, 1890, 1890, 1134, 756,
        some 0, 30, 30, 20, 10⟩ 125 0 rfl (by decide)⟩

/-! ### The world state: remaining rows and the session -/

/-- One `raids` row.  `arrives_at` and `created_at` are non-nullable
columns; `returns_at` and `resolved_at` are nullable. -/
structure Raid where
  id : Nat
  attacker_city_id : Nat
  target_city_id : Nat
  carry_capacity : Int
  stolen_food : Int
  stolen_wood : Int
  stolen_stone : Int
  stolen_iron : Int
  created_at : Int
  status : String
  outbound_seconds : Int
  return_seconds : Int
  arrives_at : Int
  returns_at : Option Int
  resolved_at : Option Int
deriving DecidableEq

/-- One `city_troops` row (live garrison count). -/
structure CityTroop where
  city_id : Nat
  troop_type_id : Nat
  count : Int
deriving DecidableEq

/-- Modelled from the spec: one `raid_troops` row.  The module
`app/models/raid_troop.py` is not in the source tree (only its callers
are); per §3 of the spec it is the per-(raid, troop type) attacker line
with `count_sent` and `count_lost`, which matches every use in
`tick.py`. -/
structure RaidTroop where
  raid_id : Nat
  troop_type_id : Nat
  count_sent : Int
  count_lost : Int
deriving DecidableEq

/-- One `raid_defender_troops` row (defender snapshot at arrival). -/
structure RaidDefenderTroop where
  raid_id : Nat
  troop_type_id : Nat
  count_start : Int
  count_lost : Int
deriving DecidableEq

/-- One `troop_types` row (the stats used by the tick engine). -/
structure TroopType where
  id : Nat
  attack : Int
  defense : Int
  hp : Int
deriving DecidableEq

/-- One `upgrades` row (the columns used by the tick engine). -/
structure Upgrade where
  city_id : Nat
  building_type : String
  to_level : Int
  completes_at : Int
deriving DecidableEq

/-- The transactional store: one list per table, in insertion order
(`query(...).all()` returns rows in this order).  `mails` abstracts the
external mail-delivery collaborator `send_raid_result_mail` as a log of
`(raid_id, delivered_at)` events; its message content does not feed back
into the simulation. -/
structure WorldState where
  cities : List City
  buildings : List Building
  upgrades : List Upgrade
  raids : List Raid
  cityTroops : List CityTroop
  raidTroops : List RaidTroop
  raidDefTroops : List RaidDefenderTroop
  troopTypes : List TroopType
  mails : List (Nat × Int)
deriving DecidableEq

/-- `db.query(City).filter(City.id == cid).first()`. -/
def findCity (S : WorldState) (cid : Nat) : Option City :=
  S.cities.find? (fun c => c.id == cid)

/-- `db.query(TroopType).filter(...)` lookup by id. -/
def findType (S : WorldState) (tid : Nat) : Option TroopType :=
  S.troopTypes.find? (fun t => t.id == tid)

/-- Attribute assignment on the city ORM row with primary key `cid`
(`id` is a primary key, so at most one row matches in a well-formed
store). -/
def mapCityId (S : WorldState) (cid : Nat) (f : City → City) : WorldState :=
  { S with cities := S.cities.map (fun c => if c.id == cid then f c else c) }

/-- Attribute assignment on the raid ORM row with primary key `rid`. -/
def updateRaidRow (S : WorldState) (rid : Nat) (v : Raid) : WorldState :=
  { S with raids := S.raids.map (fun x => if x.id == rid then v else x) }

/-- Overwrite the storage/protection columns of a city from recomputed
values (the repeated eight assignments in `tick.py`). -/
def setStorageFields (s : Storage) (c : City) : City :=
  { c with
      max_food := s.max_food, max_wood := s.max_wood
      max_stone := s.max_stone, max_iron := s.max_iron
      protected_food := s.protected_food, protected_wood := s.protected_wood
      protected_stone := s.protected_stone, protected_iron := s.protected_iron }

def refreshStorage (bs : List Building) (c : City) : City :=
  setStorageFields (recalc_storage_for_city bs c.id) c

/-! ### Combat resolution (`_apply_casualties_at_arrival`) -/

/-- Python's `round` on the exact value: round half to even. -/
def pyround (q : ℚ) : Int :=
  if q - ⌊q⌋ < 1 / 2 then ⌊q⌋
  else if 1 / 2 < q - ⌊q⌋ then ⌊q⌋ + 1
  else if ⌊q⌋ % 2 = 0 then ⌊q⌋ else ⌊q⌋ + 1

/-- Attacker unit strength `attack + 0.10 * hp`. -/
def unitAtkPower (tt : TroopType) : ℚ := (tt.attack : ℚ) + (1 / 10) * (tt.hp : ℚ)

/-- Defender unit strength `defense + 0.10 * hp`. -/
def unitDefPower (tt : TroopType) : ℚ := (tt.defense : ℚ) + (1 / 10) * (tt.hp : ℚ)

/-- Attacker power `Σ sent * (attack + 0.10*hp)` over the raid's troop
lines; a line whose troop type is missing from the catalog, or whose
clamped sent count is ≤ 0, contributes nothing (the `continue`s). -/
def atkPower (S : WorldState) (r : Raid) : ℚ :=
  ((S.raidTroops.filter (fun rt => rt.raid_id == r.id)).map (fun rt =>
    match findType S rt.troop_type_id with
    | none => 0
    | some tt =>
      let sent := max 0 rt.count_sent
      if sent ≤ 0 then 0 else (sent : ℚ) * unitAtkPower tt)).sum

/-- Defender power `Σ count * (defense + 0.10*hp)` over the target
city's garrison rows. -/
def defPower (S : WorldState) (r : Raid) : ℚ :=
  ((S.cityTroops.filter (fun ct => ct.city_id == r.target_city_id)).map (fun ct =>
    match findType S ct.troop_type_id with
    | none => 0
    | some tt =>
      let dcnt := max 0 ct.count
      if dcnt ≤ 0 then 0 else (dcnt : ℚ) * unitDefPower tt)).sum

/-- `ratio = def_power / (atk_power + def_power)`. -/
def powerShare (aP dP : ℚ) : ℚ := dP / (aP + dP)

/-- `attacker_loss_rate = min(0.60, max(0.05, ratio * 0.80))`. -/
def attacker_loss_rate (aP dP : ℚ) : ℚ :=
  min (3 / 5) (max (1 / 20) (powerShare aP dP * (4 / 5)))

/-- `defender_loss_rate = min(0.75, max(0.10, (1.0 - ratio) * 1.00))`. -/
def defender_loss_rate (aP dP : ℚ) : ℚ :=
  min (3 / 4) (max (1 / 10) ((1 - powerShare aP dP) * 1))

/-- Per-line attacker losses: `round(sent * rate)` clamped to `[0, sent]`,
with `count_lost = 0` for an empty line. -/
def atkLineLost (rate : ℚ) (rt : RaidTroop) : Int :=
  let sent := max 0 rt.count_sent
  if sent ≤ 0 then 0 else max 0 (min sent (pyround ((sent : ℚ) * rate)))

/-- Per-row defender losses: `round(count * rate)` clamped to
`[0, count]`; a row with no troops is skipped (loses nothing). -/
def defRowLost (rate : ℚ) (ct : CityTroop) : Int :=
  let dcnt := max 0 ct.count
  if dcnt ≤ 0 then 0 else max 0 (min dcnt (pyround ((dcnt : ℚ) * rate)))

/-- `_apply_casualties_at_arrival(db, raid)`.  The defender snapshot rows
are created (from the pre-combat counts) before the power computation;
here each branch appends them with the `count_lost` value that the
corresponding Python branch leaves in them. -/
def apply_casualties_at_arrival (S : WorldState) (r : Raid) : WorldState :=
  let atk_lines := S.raidTroops.filter (fun rt => rt.raid_id == r.id)
  if atk_lines = [] then S
  else if (S.raidDefTroops.find? (fun d => d.raid_id == r.id)).isSome then S
  else
    let def_rows := S.cityTroops.filter (fun ct => ct.city_id == r.target_city_id)
    if atk_lines.map (fun rt => rt.troop_type_id) ++ def_rows.map (fun ct => ct.troop_type_id)
        = [] then
      -- `if not all_type_ids`: no troop types anywhere (dead branch here,
      -- since the attacker lines are non-empty)
      { S with raidTroops := S.raidTroops.map (fun rt =>
          if rt.raid_id == r.id then { rt with count_lost := 0 } else rt) }
    else
      let aP := atkPower S r
      let dP := defPower S r
      let snaps : Int → List RaidDefenderTroop := fun lostFlag =>
        def_rows.map (fun ct =>
          { raid_id := r.id, troop_type_id := ct.troop_type_id
            count_start := max 0 ct.count
            count_lost := if lostFlag = 0 then 0
              else defRowLost (defender_loss_rate aP dP) ct })
      if dP ≤ 0 then
        { S with
            raidTroops := S.raidTroops.map (fun rt =>
              if rt.raid_id == r.id then { rt with count_lost := 0 } else rt)
            raidDefTroops := S.raidDefTroops ++ snaps 0 }
      else if aP ≤ 0 then
        { S with raidDefTroops := S.raidDefTroops ++ snaps 0 }
      else
        { S with
            raidTroops := S.raidTroops.map (fun rt =>
              if rt.raid_id == r.id then
                { rt with count_lost := atkLineLost (attacker_loss_rate aP dP) rt }
              else rt)
            cityTroops := S.cityTroops.map (fun ct =>
              if ct.city_id == r.target_city_id then
                (if max 0 ct.count ≤ 0 then ct
                 else { ct with
                    count := max 0 (ct.count - defRowLost (defender_loss_rate aP dP) ct) })
              else ct)
            raidDefTroops := S.raidDefTroops ++ snaps 1 }

/-! ### Combat loss-rate monotonicity (C7) -/

/-- The statement of C7: with attacker power fixed and both powers
positive, a larger defender power never decreases the attacker loss rate
and never increases the defender loss rate, and both rates stay inside
their clamp intervals `[0.05, 0.60]` and `[0.10, 0.75]`. -/
def combatRatePost (a d d₂ : ℚ) : Prop :=
  attacker_loss_rate a d ≤ attacker_loss_rate a d₂
  ∧ defender_loss_rate a d₂ ≤ defender_loss_rate a d
  ∧ 1 / 20 ≤ attacker_loss_rate a d ∧ attacker_loss_rate a d ≤ 3 / 5
  ∧ 1 / 10 ≤ defender_loss_rate a d ∧ defender_loss_rate a d ≤ 3 / 4

/-- **C7**: in combat resolution, with attacker power held fixed and both
powers positive, increasing defender power never decreases the attacker
loss rate and never increases the defender loss rate, and the rates always
lie within `[0.05, 0.60]` and `[0.10, 0.75]` respectively. -/
theorem claim_C7_loss_rate_monotonicity (a d d₂ : ℚ) (ha : 0 < a) (hd : 0 < d)
    (hdd : d ≤ d₂) : combatRatePost a d d₂ := by
  have hd₂ : 0 < d₂ := lt_of_lt_of_le hd hdd
  have hshare : powerShare a d ≤ powerShare a d₂ := by
    unfold powerShare
    rw [div_le_div_iff₀ (by positivity) (by positivity)]
    nlinarith
  refine ⟨?_, ?_, ?_, ?_, ?_, ?_⟩
  · exact min_le_min le_rfl
      (max_le_max le_rfl (mul_le_mul_of_nonneg_right hshare (by norm_num)))
  · exact min_le_min le_rfl
      (max_le_max le_rfl (mul_le_mul_of_nonneg_right (by linarith) (by norm_num)))
  · exact le_min (by norm_num) (le_max_left _ _)
  · exact min_le_left _ _
  · exact le_min (by norm_num) (le_max_left _ _)
  · exact min_le_left _ _

/-- Witness for C7 at attacker power 1 and defender powers 1 ≤ 3. -/
theorem claim_C7_witness :
    ((0 : ℚ) < 1 ∧ (0 : ℚ) < 1 ∧ (1 : ℚ) ≤ 3) ∧ combatRatePost 1 1 3 :=
  ⟨⟨by norm_num, by norm_num, by norm_num⟩,
    claim_C7_loss_rate_monotonicity 1 1 3 (by norm_num) (by norm_num) (by norm_num)⟩

/-! ### Combat resolution at arrival (C6) -/

/-- The statement of C6 for a raid `r`: writing `A`/`D` for the computed
attacker/defender powers, (i) under the defensive guards being inactive
(every referenced troop type present, counts non-negative) the powers are
exactly the sums `Σ count_sent * (attack + 0.10*hp)` and
`Σ count * (defense + 0.10*hp)`; (ii) if `D ≤ 0`, every attacker line's
`count_lost` becomes 0 and the defending garrison is untouched; (iii) if
`D > 0` but `A ≤ 0`, no loss effect is applied; (iv) otherwise every
attacker line loses `round(count_sent * clamp(ratio*0.80, 0.05, 0.60))`
and every defender row loses `round(count * clamp((1-ratio)*1.00, 0.10,
0.75))`, each clamped to its line's count, in one deterministic round. -/
def combatPost (S : WorldState) (r : Raid) : Prop :=
  ((∀ rt ∈ S.raidTroops.filter (fun x => x.raid_id == r.id),
      (findType S rt.troop_type_id).isSome ∧ 0 ≤ rt.count_sent) →
    atkPower S r = ((S.raidTroops.filter (fun x => x.raid_id == r.id)).map (fun rt =>
      (rt.count_sent : ℚ)
        * unitAtkPower ((findType S rt.troop_type_id).getD ⟨0, 0, 0, 0⟩))).sum)
  ∧ ((∀ ct ∈ S.cityTroops.filter (fun x => x.city_id == r.target_city_id),
      (findType S ct.troop_type_id).isSome ∧ 0 ≤ ct.count) →
    defPower S r = ((S.cityTroops.filter (fun x => x.city_id == r.target_city_id)).map (fun ct =>
      (ct.count : ℚ)
        * unitDefPower ((findType S ct.troop_type_id).getD ⟨0, 0, 0, 0⟩))).sum)
  ∧ (defPower S r ≤ 0 →
      (∀ rt ∈ (apply_casualties_at_arrival S r).raidTroops,
        rt.raid_id = r.id → rt.count_lost = 0)
      ∧ (apply_casualties_at_arrival S r).cityTroops = S.cityTroops)
  ∧ (0 < defPower S r → atkPower S r ≤ 0 →
      (apply_casualties_at_arrival S r).raidTroops = S.raidTroops
      ∧ (apply_casualties_at_arrival S r).cityTroops = S.cityTroops)
  ∧ (0 < atkPower S r → 0 < defPower S r →
      (∀ rt ∈ S.raidTroops, rt.raid_id = r.id → 0 ≤ rt.count_sent →
        ∃ rt₂ ∈ (apply_casualties_at_arrival S r).raidTroops,
          rt₂.raid_id = r.id ∧ rt₂.troop_type_id = rt.troop_type_id
          ∧ rt₂.count_sent = rt.count_sent
          ∧ rt₂.count_lost = max 0 (min rt.count_sent
              (pyround ((rt.count_sent : ℚ)
                * attacker_loss_rate (atkPower S r) (defPower S r))))
          ∧ rt₂.count_lost ≤ rt.count_sent)
      ∧ (∀ ct ∈ S.cityTroops, ct.city_id = r.target_city_id → 0 ≤ ct.count →
        ∃ ct₂ ∈ (apply_casualties_at_arrival S r).cityTroops,
          ct₂.city_id = r.target_city_id ∧ ct₂.troop_type_id = ct.troop_type_id
          ∧ ct₂.count = ct.count - max 0 (min ct.count
              (pyround ((ct.count : ℚ)
                * defender_loss_rate (atkPower S r) (defPower S r))))))

/-- **C6**: combat resolution at arrival computes attacker power
`Σ(count_sent * (attack + 0.10*hp))` and defender power
`Σ(count * (defense + 0.10*hp))`; if defender power is zero every attacker
line's `count_lost` is set to 0 and no defender losses occur; if attacker
power is zero no loss effect is applied; otherwise with
`ratio = def/(atk+def)` each attacker line loses
`round(count_sent * clamp(ratio*0.80, 0.05, 0.60))` and each defender row
loses `round(count * clamp((1-ratio)*1.00, 0.10, 0.75))`, each clamped to
its line's count, in a single deterministic round. -/
theorem claim_C6_combat_resolution (S : WorldState) (r : Raid)
    (hlines : S.raidTroops.filter (fun rt => rt.raid_id == r.id) ≠ [])
    (hsnap : S.raidDefTroops.find? (fun d => d.raid_id == r.id) = none) :
    combatPost S r := by
  have hunion : ¬ ((S.raidTroops.filter (fun rt => rt.raid_id == r.id)).map
      (fun rt => rt.troop_type_id)
      ++ (S.cityTroops.filter (fun ct => ct.city_id == r.target_city_id)).map
        (fun ct => ct.troop_type_id) = []) := by
    intro hcontra
    rcases List.append_eq_nil.mp hcontra with ⟨h1, _⟩
    exact hlines (List.map_eq_nil_iff.mp h1)
  have hsnap₂ : ¬ ((S.raidDefTroops.find? (fun d => d.raid_id == r.id)).isSome = true) := by
    rw [hsnap]; simp
  refine ⟨?_, ?_, ?_, ?_, ?_⟩
  · -- attacker power formula under the presence/non-negativity guards
    intro hguards
    unfold atkPower
    refine congrArg List.sum (List.map_congr_left ?_)
    intro rt hrt
    obtain ⟨hsome, hnn⟩ := hguards rt hrt
    rcases hfind : findType S rt.troop_type_id with _ | tt
    · rw [hfind] at hsome; simp at hsome
    · simp only [hfind, Option.getD_some]
      rcases lt_or_eq_of_le hnn with hpos | hzero
      · rw [max_eq_right (le_of_lt hpos), if_neg (by omega)]
      · rw [← hzero]
        norm_num
  · -- defender power formula under the presence/non-negativity guards
    intro hguards
    unfold defPower
    refine congrArg List.sum (List.map_congr_left ?_)
    intro ct hct
    obtain ⟨hsome, hnn⟩ := hguards ct hct
    rcases hfind : findType S ct.troop_type_id with _ | tt
    · rw [hfind] at hsome; simp at hsome
    · simp only [hfind, Option.getD_some]
      rcases lt_or_eq_of_le hnn with hpos | hzero
      · rw [max_eq_right (le_of_lt hpos), if_neg (by omega)]
      · rw [← hzero]
        norm_num
  · -- defender power ≤ 0: all attacker lines lose 0, garrison untouched
    intro hdP
    simp only [apply_casualties_at_arrival]
    rw [if_neg hlines, if_neg hsnap₂, if_neg hunion, if_pos hdP]
    constructor
    · intro rt hrt hid
      rcases List.mem_map.mp hrt with ⟨x, _, hx⟩
      by_cases hxid : x.raid_id == r.id
      · rw [if_pos hxid] at hx
        rw [← hx]
      · rw [if_neg hxid] at hx
        subst hx
        exact absurd hid (by simpa using hxid)
    · rfl
  · -- attacker power ≤ 0 (with defenders present): no loss effect
    intro hdP haP
    simp only [apply_casualties_at_arrival]
    rw [if_neg hlines, if_neg hsnap₂, if_neg hunion, if_neg (not_le.mpr hdP), if_pos haP]
    exact ⟨rfl, rfl⟩
  · -- both powers positive: the clamped rounded losses per line
    intro haP hdP
    simp only [apply_casualties_at_arrival]
    rw [if_neg hlines, if_neg hsnap₂, if_neg hunion, if_neg (not_le.mpr hdP),
      if_neg (not_le.mpr haP)]
    constructor
    · intro rt hrt hid hnn
      have hcl : atkLineLost (attacker_loss_rate (atkPower S r) (defPower S r)) rt
          = max 0 (min rt.count_sent
              (pyround ((rt.count_sent : ℚ)
                * attacker_loss_rate (atkPower S r) (defPower S r)))) := by
        unfold atkLineLost
        rw [max_eq_right hnn]
        rcases lt_or_eq_of_le hnn with hpos | hzero
        · rw [if_neg (by omega)]
        · rw [← hzero, if_pos le_rfl]
          have := min_le_left (0 : Int)
            (pyround ((0 : ℚ) * attacker_loss_rate (atkPower S r) (defPower S r)))
          push_cast
          omega
      have hval : (if rt.raid_id == r.id then
            { rt with count_lost :=
                atkLineLost (attacker_loss_rate (atkPower S r) (defPower S r)) rt }
          else rt)
          = { rt with count_lost := max 0 (min rt.count_sent
              (pyround ((rt.count_sent : ℚ)
                * attacker_loss_rate (atkPower S r) (defPower S r)))) } := by
        rw [if_pos (by simpa using hid), hcl]
      refine ⟨{ rt with count_lost := max 0 (min rt.count_sent
          (pyround ((rt.count_sent : ℚ)
            * attacker_loss_rate (atkPower S r) (defPower S r)))) },
        hval ▸ List.mem_map_of_mem _ hrt, hid, rfl, rfl, rfl, ?_⟩
      have hle : max 0 (min rt.count_sent
          (pyround ((rt.count_sent : ℚ)
            * attacker_loss_rate (atkPower S r) (defPower S r)))) ≤ rt.count_sent := by
        have := min_le_left rt.count_sent
          (pyround ((rt.count_sent : ℚ) * attacker_loss_rate (atkPower S r) (defPower S r)))
        omega
      exact hle
    · intro ct hct hid hnn
      rcases lt_or_eq_of_le hnn with hpos | hzero
      · have hdl : defRowLost (defender_loss_rate (atkPower S r) (defPower S r)) ct
            = max 0 (min ct.count
                (pyround ((ct.count : ℚ)
                  * defender_loss_rate (atkPower S r) (defPower S r)))) := by
          unfold defRowLost
          rw [max_eq_right hnn, if_neg (by omega)]
        have hzle : max 0 (min ct.count
            (pyround ((ct.count : ℚ)
              * defender_loss_rate (atkPower S r) (defPower S r)))) ≤ ct.count := by
          have := min_le_left ct.count
            (pyround ((ct.count : ℚ) * defender_loss_rate (atkPower S r) (defPower S r)))
          omega
        have hval : (if ct.city_id == r.target_city_id then
              (if max 0 ct.count ≤ 0 then ct
               else { ct with count := max 0 (ct.count
                  - defRowLost (defender_loss_rate (atkPower S r) (defPower S r)) ct) })
            else ct)
            = { ct with count := ct.count - max 0 (min ct.count
                (pyround ((ct.count : ℚ)
                  * defender_loss_rate (atkPower S r) (defPower S r)))) } := by
          rw [if_pos (by simpa using hid), if_neg (by omega), hdl]
          have heq : max 0 (ct.count - max 0 (min ct.count
              (pyround ((ct.count : ℚ)
                * defender_loss_rate (atkPower S r) (defPower S r)))))
              = ct.count - max 0 (min ct.count
                (pyround ((ct.count : ℚ)
                  * defender_loss_rate (atkPower S r) (defPower S r)))) := by omega
          rw [heq]
        exact ⟨{ ct with count := ct.count - max 0 (min ct.count
            (pyround ((ct.count : ℚ)
              * defender_loss_rate (atkPower S r) (defPower S r)))) },
          hval ▸ List.mem_map_of_mem _ hct, hid, rfl, rfl⟩
      · have hval : (if ct.city_id == r.target_city_id then
              (if max 0 ct.count ≤ 0 then ct
               else { ct with count := max 0 (ct.count
                  - defRowLost (defender_loss_rate (atkPower S r) (defPower S r)) ct) })
            else ct) = ct := by
          rw [if_pos (by simpa using hid), if_pos (by omega)]
        refine ⟨ct, hval ▸ List.mem_map_of_mem _ hct, hid, rfl, ?_⟩
        have := min_le_left ct.count
          (pyround ((ct.count : ℚ) * defender_loss_rate (atkPower S r) (defPower S r)))
        omega

/-- Witness for C6: one attacker line (10 troops of type 1) against one
defender row (5 troops of type 2), both types present in the catalog. -/
theorem claim_C6_witness :
    ((WorldState.mk [] [] [] []
        [⟨2, 2, 5⟩]
        [⟨1, 1, 10, 0⟩]
        []
        [⟨1, 10, 4, 10⟩, ⟨2, 4, 4, 10⟩] []).raidTroops.filter
          (fun rt => rt.raid_id == 1) ≠ []
      ∧ (WorldState.mk [] [] [] []
          [⟨2, 2, 5⟩]
          [⟨1, 1, 10, 0⟩]
          []
          [⟨1, 10, 4, 10⟩, ⟨2, 4, 4, 10⟩] []).raidDefTroops.find?
            (fun d => d.raid_id == 1) = none)
    ∧ combatPost
        (WorldState.mk [] [] [] []
          [⟨2, 2, 5⟩]
          [⟨1, 1, 10, 0⟩]
          []
          [⟨1, 10, 4, 10⟩, ⟨2, 4, 4, 10⟩] [])
        ⟨1, 7, 2, 100, 0, 0, 0, 0, 0, "enroute", 10, 10, 50, none, none⟩ :=
  ⟨⟨by decide, by decide⟩,
    claim_C6_combat_resolution _ _ (by decide) (by decide)⟩

/-! ### Troop return (`_return_troops_from_raid`, C3) -/

/-- Increment the first `city_troops` row matching `(cid, tid)` (the
ORM's `.first()` row) by `add`. -/
def addToFirstCityTroop : List CityTroop → Nat → Nat → Int → List CityTroop
  | [], _, _, _ => []
  | ct :: rest, cid, tid, add =>
    if ct.city_id == cid && ct.troop_type_id == tid then
      { ct with count := ct.count + add } :: rest
    else ct :: addToFirstCityTroop rest cid tid add

/-- The garrison upsert of `_return_troops_from_raid`: find the row, or
create it with `count = 0` (appended to the table), then
`row.count = row.count + returning`. -/
def upsertCityTroop (S : WorldState) (cid tid : Nat) (add : Int) : WorldState :=
  if (S.cityTroops.find? (fun ct => ct.city_id == cid && ct.troop_type_id == tid)).isSome then
    { S with cityTroops := addToFirstCityTroop S.cityTroops cid tid add }
  else
    { S with cityTroops := S.cityTroops ++ [{ city_id := cid, troop_type_id := tid, count := 0 + add }] }

/-- `_return_troops_from_raid(db, raid)`: for each line of the raid,
credit `returning = max(0, sent - lost)` back to the attacker's garrison,
then write the "consumed" fence.  NOTE the fence the code actually writes
is `count_sent = max(count_sent, count_lost)` — its docstring and the
spec say `count_sent = count_lost`. -/
def returnLineStep (attackerCity rid : Nat) (acc : WorldState) (rt : RaidTroop) : WorldState :=
  let sent := max 0 rt.count_sent
  let lost := max 0 rt.count_lost
  let returning := max 0 (sent - lost)
  let acc₂ := if 0 < returning then
      upsertCityTroop acc attackerCity rt.troop_type_id returning
    else acc
  { acc₂ with raidTroops := acc₂.raidTroops.map (fun x =>
      if x.raid_id == rid && x.troop_type_id == rt.troop_type_id then
        { x with count_sent := max x.count_sent x.count_lost }
      else x) }

def return_troops_from_raid (S : WorldState) (r : Raid) : WorldState :=
  let lines := S.raidTroops.filter (fun rt => rt.raid_id == r.id)
  if lines = [] then S
  else lines.foldl (returnLineStep r.attacker_city_id r.id) S

/-- **C3** (evaluation at the failing input): the raid has one line with
`count_sent = 10`, `count_lost = 3`.  After `_return_troops_from_raid`
runs once, the line still reads `count_sent = 10` (the code's fence
`count_sent = max(count_sent, count_lost)` is the identity whenever
`count_lost ≤ count_sent`, and never equals the documented
`count_sent = count_lost` fence), so a second direct invocation computes
`returning = 7` again and credits the attacker's garrison a second time:
7 troops after one run, 14 after two. -/
theorem claim_C3_fence_eval :
    (return_troops_from_raid
        ⟨[], [], [], [], [], [⟨1, 1, 10, 3⟩], [], [], []⟩
        ⟨1, 1, 2, 0, 0, 0, 0, 0, 0, "returning", 1, 1, 50, some 60, none⟩).raidTroops
      = [⟨1, 1, 10, 3⟩]
    ∧ (return_troops_from_raid
        ⟨[], [], [], [], [], [⟨1, 1, 10, 3⟩], [], [], []⟩
        ⟨1, 1, 2, 0, 0, 0, 0, 0, 0, "returning", 1, 1, 50, some 60, none⟩).cityTroops
      = [⟨1, 1, 7⟩]
    ∧ (return_troops_from_raid
        (return_troops_from_raid
          ⟨[], [], [], [], [], [⟨1, 1, 10, 3⟩], [], [], []⟩
          ⟨1, 1, 2, 0, 0, 0, 0, 0, 0, "returning", 1, 1, 50, some 60, none⟩)
        ⟨1, 1, 2, 0, 0, 0, 0, 0, 0, "returning", 1, 1, 50, some 60, none⟩).cityTroops
      = [⟨1, 1, 14⟩] := by
  decide

/-! ### Raid state machine: arrival and return passes -/

/-- Subtract the taken loot from a city's stocks, flooring each at the
city's protected minimum (`target.X -= taken[X]; target.X =
max(target.X, target.protected_X)`). -/
def lootApply (c : City) (taken : ResAmounts) : City :=
  { c with
      food := max (c.food - (taken.food : Int)) c.protected_food
      wood := max (c.wood - (taken.wood : Int)) c.protected_wood
      stone := max (c.stone - (taken.stone : Int)) c.protected_stone
      iron := max (c.iron - (taken.iron : Int)) c.protected_iron }

/-- The stage-1 timing patch for `outbound_seconds`: if missing/0, derive
it from the timestamps (`arrives_at` and `created_at` are non-null
columns), floored at 1. -/
def repairedOutbound (r : Raid) : Int :=
  if r.outbound_seconds ≤ 0 then max 1 (r.arrives_at - r.created_at) else r.outbound_seconds

/-- The stage-1 timing patch for `return_seconds`: if missing/0, default
to the (repaired) `outbound_seconds`, floored at 1. -/
def repairedReturn (r : Raid) : Int :=
  if r.return_seconds ≤ 0 then max 1 (repairedOutbound r) else r.return_seconds

/-- The raid row after the arrival pass resolves it with both cities
present: stolen amounts recorded, timing repaired, `returns_at`
re-anchored to `arrives_at`, transitioned to `returning` with
`resolved_at` cleared. -/
def arrivalRaidUpdate (r : Raid) (taken : ResAmounts) : Raid :=
  { r with
      stolen_food := (taken.food : Int), stolen_wood := (taken.wood : Int)
      stolen_stone := (taken.stone : Int), stolen_iron := (taken.iron : Int)
      outbound_seconds := repairedOutbound r, return_seconds := repairedReturn r
      returns_at := some (r.arrives_at + repairedReturn r)
      status := "returning", resolved_at := none }

/-- The loop body of `_resolve_arrivals_to_returning_at` for one due raid
`r`.  If either city is missing the raid is force-resolved; otherwise the
storage of both cities is refreshed, loot is computed from the refreshed
target and taken proportionally, the target's stocks drop by the taken
amounts floored at its protected minimums, the taken amounts are stored
on the raid as stolen, combat is resolved, and the raid becomes
`returning`.

`refreshStorage` is idempotent and `mapCityId` preserves city ids, so the
row the loot subtraction later reads is exactly `refreshStorage` of the
row found here (also when attacker = target). -/
def processArrival (S : WorldState) (r : Raid) (t : Int) : WorldState :=
  match findCity S r.attacker_city_id, findCity S r.target_city_id with
  | some _, some tgt0 =>
    let S₂ := mapCityId (mapCityId S r.attacker_city_id (refreshStorage S.buildings))
      r.target_city_id (refreshStorage S.buildings)
    let tgt := refreshStorage S.buildings tgt0
    let taken := proportional_take (lootable tgt) r.carry_capacity
    let S₃ := mapCityId S₂ r.target_city_id (fun c => lootApply c taken)
    let S₄ := apply_casualties_at_arrival S₃ r
    updateRaidRow S₄ r.id (arrivalRaidUpdate r taken)
  | _, _ =>
    updateRaidRow S r.id { r with status := "resolved", resolved_at := some t }

/-- `_resolve_arrivals_to_returning_at(db, event_time)`: stage 1 of the
raid resolver over all due rows, returning the count it resolved. -/
def resolve_arrivals_to_returning_at (S : WorldState) (t : Int) : WorldState × Nat :=
  let due := S.raids.filter (fun r => r.status == "enroute" && decide (r.arrives_at ≤ t))
  (due.foldl (fun acc r => processArrival acc r t) S, due.length)

/-- The loop body of `_resolve_returns_to_resolved_at` for one due raid:
mark it resolved, run the troop return, then (when the attacker city
exists) refresh the attacker's storage and credit the clamped stolen
amounts capped at the refreshed maxima; finally deliver the result
mail. -/
def processReturn (S : WorldState) (r : Raid) (t : Int) : WorldState :=
  let attacker := findCity S r.attacker_city_id
  let sf := max 0 r.stolen_food
  let sw := max 0 r.stolen_wood
  let ss := max 0 r.stolen_stone
  let si := max 0 r.stolen_iron
  let S₁ := updateRaidRow S r.id { r with status := "resolved", resolved_at := some t }
  let S₂ := return_troops_from_raid S₁ r
  let S₃ :=
    match attacker with
    | none => S₂
    | some _ =>
      mapCityId S₂ r.attacker_city_id (fun c =>
        let s := recalc_storage_for_city S₂.buildings c.id
        { c with
            max_food := s.max_food, max_wood := s.max_wood
            max_stone := s.max_stone, max_iron := s.max_iron
            protected_food := s.protected_food, protected_wood := s.protected_wood
            protected_stone := s.protected_stone, protected_iron := s.protected_iron
            food := min s.max_food (c.food + sf)
            wood := min s.max_wood (c.wood + sw)
            stone := min s.max_stone (c.stone + ss)
            iron := min s.max_iron (c.iron + si) })
  { S₃ with mails := S₃.mails ++ [(r.id, t)] }

/-- `_resolve_returns_to_resolved_at(db, event_time)`: stage 2 of the
raid resolver (`returning` rows with a non-null `returns_at ≤ t`). -/
def resolve_returns_to_resolved_at (S : WorldState) (t : Int) : WorldState × Nat :=
  let due := S.raids.filter (fun r => r.status == "returning"
    && match r.returns_at with
       | some x => decide (x ≤ t)
       | none => false)
  (due.foldl (fun acc r => processReturn acc r t) S, due.length)

/-! ### Upgrade completion -/

/-- Set the level of the first `buildings` row matching `(cid, btype)`
(the ORM's `.first()`), reporting whether a row was found. -/
def setFirstBuilding : List Building → Nat → String → Int → List Building × Bool
  | [], _, _, _ => ([], false)
  | b :: rest, cid, ty, lvl =>
    if b.city_id == cid && b.btype == ty then ({ b with level := lvl } :: rest, true)
    else
      let p := setFirstBuilding rest cid ty lvl
      (b :: p.1, p.2)

/-- The per-city refresh run for every city touched by a completed
upgrade: mirror the townhall level onto the city, recompute rates,
storage and protection, and clamp the stocks to the new caps. -/
def refreshCityAfterUpgrade (S : WorldState) (cid : Nat) : WorldState :=
  match findCity S cid with
  | none => S
  | some _ =>
    let keep := S.buildings.find? (fun b => b.city_id == cid && b.btype == "townhall")
    mapCityId S cid (fun c =>
      let c₁ := match keep with
        | some b => { c with townhall_level := b.level }
        | none => c
      let r := recalc_rates_for_city S.buildings cid
      let s := recalc_storage_for_city S.buildings cid
      { c₁ with
          food_rate := r.food_rate, wood_rate := r.wood_rate
          stone_rate := r.stone_rate, iron_rate := r.iron_rate
          max_food := s.max_food, max_wood := s.max_wood
          max_stone := s.max_stone, max_iron := s.max_iron
          protected_food := s.protected_food, protected_wood := s.protected_wood
          protected_stone := s.protected_stone, protected_iron := s.protected_iron
          food := min c₁.food s.max_food
          wood := min c₁.wood s.max_wood
          stone := min c₁.stone s.max_stone
          iron := min c₁.iron s.max_iron })

/-- `_complete_due_upgrades_at(db, event_time)`: apply each due upgrade's
target level to its building, delete the due rows, then refresh every
touched city (Python iterates the touched set; the per-city refreshes are
independent, so first-touch order is as good as any set order). -/
def upgradeApplyStep (p : List Building × List Nat) (u : Upgrade) : List Building × List Nat :=
  let q := setFirstBuilding p.1 u.city_id u.building_type u.to_level
  (q.1, if q.2 && !(p.2.contains u.city_id) then p.2 ++ [u.city_id] else p.2)

def complete_due_upgrades_at (S : WorldState) (t : Int) : WorldState × Nat :=
  let due := S.upgrades.filter (fun u => decide (u.completes_at ≤ t))
  let folded := due.foldl upgradeApplyStep (S.buildings, [])
  let S₁ := { S with
    buildings := folded.1
    upgrades := S.upgrades.filter (fun u => !(decide (u.completes_at ≤ t))) }
  (folded.2.foldl refreshCityAfterUpgrade S₁, due.length)

/-! ### The event-time scheduler -/

/-- `_next_event_time(db, after, hard_stop)`: the minimum over the next
due arrival, return and upgrade-completion times inside
`(after, hard_stop]`, or `none`.  (Each category's
`order_by(...).first()` is that category's minimum candidate and the
function returns `min` of the three, which equals the minimum of all the
candidates collected here.) -/
def eventCandidates (S : WorldState) (after stop : Int) : List Int :=
  S.raids.filterMap (fun r =>
    if r.status == "enroute" && decide (after < r.arrives_at) && decide (r.arrives_at ≤ stop)
    then some r.arrives_at else none)
  ++ S.raids.filterMap (fun r =>
    match r.returns_at with
    | some x =>
      if r.status == "returning" && decide (after < x) && decide (x ≤ stop)
      then some x else none
    | none => none)
  ++ S.upgrades.filterMap (fun u =>
    if decide (after < u.completes_at) && decide (u.completes_at ≤ stop)
    then some u.completes_at else none)

def next_event_time (S : WorldState) (after stop : Int) : Option Int :=
  (eventCandidates S after stop).min?

/-- Advance every city's production up to `t` (`for c in cities:
apply_city_tick(c, event_time, db)`), accumulating the total minutes and
the ids of cities that had minutes applied. -/
def advanceCityStep (bs : List Building) (t : Int) (p : List City × Int × List Nat)
    (c : City) : List City × Int × List Nat :=
  let q := apply_city_tick bs c t
  (p.1 ++ [q.1], p.2.1 + q.2,
    if 0 < q.2 && !(p.2.2.contains c.id) then p.2.2 ++ [c.id] else p.2.2)

def advance_cities (S : WorldState) (t : Int) : WorldState × Int × List Nat :=
  let folded := S.cities.foldl (advanceCityStep S.buildings t) ([], 0, [])
  ({ S with cities := folded.1 }, folded.2.1, folded.2.2)

/-- The observability counters of `tick_all_cities`' summary dict. -/
structure TickTotals where
  total_minutes : Int
  ticked_city_ids : List Nat
  upgrades_completed : Nat
  raids_arrived : Nat
  raids_returned : Nat
deriving DecidableEq

/-- Set-union of ticked city id lists (first-seen order). -/
def unionIds (a b : List Nat) : List Nat := a ++ b.filter (fun i => !(a.contains i))

/-- The effective starting clock: the minimum `last_tick_at` across all
cities, or `now` if no city is behind. -/
def tickStartStep (s : Int) (c : City) : Int :=
  match c.last_tick_at with
  | some l => if l < s then l else s
  | none => s

def tickStart (S : WorldState) (now : Int) : Int :=
  S.cities.foldl tickStartStep now

/-- Fuel bound for the scheduler loop: every non-terminal iteration
resolves at least one due row, and resolving moves a raid strictly down
the chain `enroute (2) → returning (1) → resolved (0)` or deletes an
upgrade, so this measure strictly decreases (proved below). -/
def tickMeasure (S : WorldState) : Nat :=
  2 * S.raids.countP (fun r => r.status == "enroute")
    + S.raids.countP (fun r => r.status == "returning")
    + S.upgrades.length

/-- One `while True` iteration plus the loop's recursion
(`tick_all_cities`'s body): pick the next event time (or `now`), advance
all cities to it, resolve due upgrades, then due arrivals, then due
returns, and stop once the clock reached `now`.  The Python loop has no
fuel; `tickMeasure + 1` iterations always suffice (proved below), so the
fuel-free behaviour is reproduced exactly. -/
def tickLoop : Nat → WorldState → Int → Int → TickTotals → WorldState × TickTotals
  | 0, S, _, _, tot => (S, tot)
  | fuel + 1, S, current, now, tot =>
    let t := (next_event_time S current now).getD now
    let adv := advance_cities S t
    let up := complete_due_upgrades_at adv.1 t
    let arr := resolve_arrivals_to_returning_at up.1 t
    let ret := resolve_returns_to_resolved_at arr.1 t
    let tot₂ : TickTotals :=
      { total_minutes := tot.total_minutes + adv.2.1
        ticked_city_ids := unionIds tot.ticked_city_ids adv.2.2
        upgrades_completed := tot.upgrades_completed + up.2
        raids_arrived := tot.raids_arrived + arr.2
        raids_returned := tot.raids_returned + ret.2 }
    if now ≤ t then (ret.1, tot₂)
    else tickLoop fuel ret.1 t now tot₂

/-- `tick_all_cities(db, now)`: the event-time stepping driver. -/
def tick_all_cities (S : WorldState) (now : Int) : WorldState × TickTotals :=
  tickLoop (tickMeasure S + 1) S (tickStart S now) now ⟨0, [], 0, 0, 0⟩

/-! ### Lookup and frame lemmas -/

/-- `db.query(Raid).filter(Raid.id == rid).first()`. -/
def findRaid (S : WorldState) (rid : Nat) : Option Raid :=
  S.raids.find? (fun x => x.id == rid)

theorem refreshStorage_id (bs : List Building) (c : City) :
    (refreshStorage bs c).id = c.id := rfl

theorem refreshStorage_idem (bs : List Building) (c : City) :
    refreshStorage bs (refreshStorage bs c) = refreshStorage bs c := rfl

theorem lootApply_id (c : City) (taken : ResAmounts) : (lootApply c taken).id = c.id := rfl

theorem findCity_mapCityId_self (S : WorldState) (cid : Nat) (f : City → City)
    (hid : ∀ c, (f c).id = c.id) :
    findCity (mapCityId S cid f) cid = (findCity S cid).map f := by
  unfold findCity mapCityId
  simp only [List.find?_map]
  have hp : ((fun c : City => c.id == cid) ∘ (fun c => if c.id == cid then f c else c))
      = fun c : City => c.id == cid := by
    funext c
    simp only [Function.comp_apply]
    by_cases h : (c.id == cid) = true
    · rw [if_pos h, hid]
    · rw [if_neg h]
  rw [hp]
  cases hfind : S.cities.find? (fun c => c.id == cid) with
  | none => rfl
  | some c₀ =>
    have hc₀ := List.find?_some hfind
    simp only [Option.map_some', Option.some.injEq]
    rw [if_pos hc₀]

theorem findCity_mapCityId_other (S : WorldState) (cid cid₂ : Nat) (f : City → City)
    (hid : ∀ c, (f c).id = c.id) (hne : cid₂ ≠ cid) :
    findCity (mapCityId S cid f) cid₂ = findCity S cid₂ := by
  unfold findCity mapCityId
  simp only [List.find?_map]
  have hp : ((fun c : City => c.id == cid₂) ∘ (fun c => if c.id == cid then f c else c))
      = fun c : City => c.id == cid₂ := by
    funext c
    simp only [Function.comp_apply]
    by_cases h : (c.id == cid) = true
    · rw [if_pos h, hid]
    · rw [if_neg h]
  rw [hp]
  cases hfind : S.cities.find? (fun c => c.id == cid₂) with
  | none => rfl
  | some c₀ =>
    have hc₀ := List.find?_some hfind
    have h1 : c₀.id = cid₂ := by simpa using hc₀
    simp only [Option.map_some', Option.some.injEq]
    rw [if_neg (by simp only [h1, beq_iff_eq]; exact hne)]

theorem mapCityId_raids (S : WorldState) (cid : Nat) (f : City → City) :
    (mapCityId S cid f).raids = S.raids := rfl

theorem updateRaidRow_cities (S : WorldState) (rid : Nat) (v : Raid) :
    (updateRaidRow S rid v).cities = S.cities := rfl

theorem findRaid_updateRaidRow (S : WorldState) (rid : Nat) (v : Raid) (hv : v.id = rid) :
    findRaid (updateRaidRow S rid v) rid = (findRaid S rid).map (fun _ => v) := by
  unfold findRaid updateRaidRow
  simp only [List.find?_map]
  have hp : ((fun x : Raid => x.id == rid) ∘ (fun x => if x.id == rid then v else x))
      = fun x : Raid => x.id == rid := by
    funext x
    simp only [Function.comp_apply]
    by_cases h : (x.id == rid) = true
    · rw [if_pos h, h]
      simp [hv]
    · rw [if_neg h]
  rw [hp]
  cases hfind : S.raids.find? (fun x => x.id == rid) with
  | none => rfl
  | some x₀ =>
    have hx₀ := List.find?_some hfind
    simp only [Option.map_some', Option.some.injEq]
    rw [if_pos hx₀]

theorem apply_casualties_cities (S : WorldState) (r : Raid) :
    (apply_casualties_at_arrival S r).cities = S.cities := by
  simp only [apply_casualties_at_arrival]
  repeat first
  | rfl
  | split

theorem apply_casualties_raids (S : WorldState) (r : Raid) :
    (apply_casualties_at_arrival S r).raids = S.raids := by
  simp only [apply_casualties_at_arrival]
  repeat first
  | rfl
  | split

theorem apply_casualties_upgrades (S : WorldState) (r : Raid) :
    (apply_casualties_at_arrival S r).upgrades = S.upgrades := by
  simp only [apply_casualties_at_arrival]
  repeat first
  | rfl
  | split

theorem upsertCityTroop_cities (S : WorldState) (cid tid : Nat) (add : Int) :
    (upsertCityTroop S cid tid add).cities = S.cities := by
  unfold upsertCityTroop
  split <;> rfl

theorem upsertCityTroop_raids (S : WorldState) (cid tid : Nat) (add : Int) :
    (upsertCityTroop S cid tid add).raids = S.raids := by
  unfold upsertCityTroop
  split <;> rfl

theorem upsertCityTroop_upgrades (S : WorldState) (cid tid : Nat) (add : Int) :
    (upsertCityTroop S cid tid add).upgrades = S.upgrades := by
  unfold upsertCityTroop
  split <;> rfl

theorem returnLineStep_cities (ac rid : Nat) (acc : WorldState) (rt : RaidTroop) :
    (returnLineStep ac rid acc rt).cities = acc.cities := by
  simp only [returnLineStep]
  split
  · rw [upsertCityTroop_cities]
  · rfl

theorem returnLineStep_raids (ac rid : Nat) (acc : WorldState) (rt : RaidTroop) :
    (returnLineStep ac rid acc rt).raids = acc.raids := by
  simp only [returnLineStep]
  split
  · rw [upsertCityTroop_raids]
  · rfl

theorem returnLineStep_upgrades (ac rid : Nat) (acc : WorldState) (rt : RaidTroop) :
    (returnLineStep ac rid acc rt).upgrades = acc.upgrades := by
  simp only [returnLineStep]
  split
  · rw [upsertCityTroop_upgrades]
  · rfl

theorem foldl_returnLineStep_cities (ac rid : Nat) :
    ∀ (ls : List RaidTroop) (acc : WorldState),
      (ls.foldl (returnLineStep ac rid) acc).cities = acc.cities := by
  intro ls
  induction ls with
  | nil => intro acc; rfl
  | cons x xs ih =>
    intro acc
    rw [List.foldl_cons, ih, returnLineStep_cities]

theorem foldl_returnLineStep_raids (ac rid : Nat) :
    ∀ (ls : List RaidTroop) (acc : WorldState),
      (ls.foldl (returnLineStep ac rid) acc).raids = acc.raids := by
  intro ls
  induction ls with
  | nil => intro acc; rfl
  | cons x xs ih =>
    intro acc
    rw [List.foldl_cons, ih, returnLineStep_raids]

theorem foldl_returnLineStep_upgrades (ac rid : Nat) :
    ∀ (ls : List RaidTroop) (acc : WorldState),
      (ls.foldl (returnLineStep ac rid) acc).upgrades = acc.upgrades := by
  intro ls
  induction ls with
  | nil => intro acc; rfl
  | cons x xs ih =>
    intro acc
    rw [List.foldl_cons, ih, returnLineStep_upgrades]

theorem return_troops_cities (S : WorldState) (r : Raid) :
    (return_troops_from_raid S r).cities = S.cities := by
  simp only [return_troops_from_raid]
  split
  · rfl
  · rw [foldl_returnLineStep_cities]

theorem return_troops_raids (S : WorldState) (r : Raid) :
    (return_troops_from_raid S r).raids = S.raids := by
  simp only [return_troops_from_raid]
  split
  · rfl
  · rw [foldl_returnLineStep_raids]

theorem return_troops_upgrades (S : WorldState) (r : Raid) :
    (return_troops_from_raid S r).upgrades = S.upgrades := by
  simp only [return_troops_from_raid]
  split
  · rfl
  · rw [foldl_returnLineStep_upgrades]

theorem findCity_eq_of_cities_eq {S₁ S₂ : WorldState} (h : S₁.cities = S₂.cities)
    (cid : Nat) : findCity S₁ cid = findCity S₂ cid := by
  unfold findCity
  rw [h]

theorem findRaid_eq_of_raids_eq {S₁ S₂ : WorldState} (h : S₁.raids = S₂.raids)
    (rid : Nat) : findRaid S₁ rid = findRaid S₂ rid := by
  unfold findRaid
  rw [h]

theorem proportional_take_le (loot : ResAmounts) (capacity : Int) (k : Res) :
    (proportional_take loot capacity).get k ≤ loot.get k := by
  by_cases hc : 0 ≤ capacity
  · exact (proportional_take_spec loot capacity hc).2 k
  · simp only [proportional_take]
    rw [if_pos (Or.inr (by omega))]
    cases k <;> simp [ResAmounts.get]

/-! ### The arrival pass on one due raid (C8, C9, C10) -/

/-- What the arrival step does to the target city row and to the raid row
when both cities are found: the target becomes `lootApply` of its
storage-refreshed row, and the raid becomes `arrivalRaidUpdate` with the
proportionally taken loot computed against the refreshed target. -/
theorem processArrival_found_char (S : WorldState) (r : Raid) (t : Int) (a tgt0 : City)
    (hA : findCity S r.attacker_city_id = some a)
    (hT : findCity S r.target_city_id = some tgt0) :
    findCity (processArrival S r t) r.target_city_id
      = some (lootApply (refreshStorage S.buildings tgt0)
          (proportional_take (lootable (refreshStorage S.buildings tgt0)) r.carry_capacity))
    ∧ ((findRaid S r.id).isSome →
        findRaid (processArrival S r t) r.id
          = some (arrivalRaidUpdate r
              (proportional_take (lootable (refreshStorage S.buildings tgt0))
                r.carry_capacity))) := by
  simp only [processArrival, hA, hT]
  constructor
  · rw [findCity_eq_of_cities_eq (updateRaidRow_cities _ _ _),
      findCity_eq_of_cities_eq (apply_casualties_cities _ _),
      findCity_mapCityId_self _ _ _ (fun c => lootApply_id c _)]
    have h2 : findCity
        (mapCityId (mapCityId S r.attacker_city_id (refreshStorage S.buildings))
          r.target_city_id (refreshStorage S.buildings))
        r.target_city_id = some (refreshStorage S.buildings tgt0) := by
      rw [findCity_mapCityId_self _ _ _ (refreshStorage_id S.buildings)]
      by_cases hidc : r.target_city_id = r.attacker_city_id
      · rw [hidc] at hT ⊢
        rw [findCity_mapCityId_self _ _ _ (refreshStorage_id S.buildings), hT]
        simp only [Option.map_some', Option.some.injEq]
        exact refreshStorage_idem S.buildings tgt0
      · rw [findCity_mapCityId_other _ _ _ _ (refreshStorage_id S.buildings) hidc, hT]
        rfl
    rw [h2]
    rfl
  · intro hsome
    have hraids : (apply_casualties_at_arrival
        (mapCityId (mapCityId (mapCityId S r.attacker_city_id (refreshStorage S.buildings))
            r.target_city_id (refreshStorage S.buildings))
          r.target_city_id
          (fun c => lootApply c (proportional_take (lootable (refreshStorage S.buildings tgt0))
            r.carry_capacity)))
        r).raids = S.raids := by
      rw [apply_casualties_raids, mapCityId_raids, mapCityId_raids, mapCityId_raids]
    rw [findRaid_updateRaidRow _ r.id
      (arrivalRaidUpdate r (proportional_take (lootable (refreshStorage S.buildings tgt0))
        r.carry_capacity)) rfl,
      findRaid_eq_of_raids_eq hraids]
    cases hfind : findRaid S r.id with
    | none => rw [hfind] at hsome; simp at hsome
    | some x => rfl

/-- The statement of C8: when the arrival pass resolves a raid whose
attacker and target cities both exist, the target's four stocks are
reduced by exactly the taken amounts but never end below the target's
freshly recomputed protected floors, and the raid's stolen amounts are
set to exactly the taken amounts, which are never negative. -/
def arrivalLootPost (S : WorldState) (r : Raid) (t : Int) (tgt0 : City) : Prop :=
  findCity (processArrival S r t) r.target_city_id
    = some (lootApply (refreshStorage S.buildings tgt0)
        (proportional_take (lootable (refreshStorage S.buildings tgt0)) r.carry_capacity))
  ∧ (∀ c₂, findCity (processArrival S r t) r.target_city_id = some c₂ →
      (refreshStorage S.buildings tgt0).protected_food ≤ c₂.food
      ∧ (refreshStorage S.buildings tgt0).protected_wood ≤ c₂.wood
      ∧ (refreshStorage S.buildings tgt0).protected_stone ≤ c₂.stone
      ∧ (refreshStorage S.buildings tgt0).protected_iron ≤ c₂.iron)
  ∧ ∃ r₂, findRaid (processArrival S r t) r.id = some r₂
      ∧ r₂.stolen_food
          = ((proportional_take (lootable (refreshStorage S.buildings tgt0))
              r.carry_capacity).food : Int)
      ∧ r₂.stolen_wood
          = ((proportional_take (lootable (refreshStorage S.buildings tgt0))
              r.carry_capacity).wood : Int)
      ∧ r₂.stolen_stone
          = ((proportional_take (lootable (refreshStorage S.buildings tgt0))
              r.carry_capacity).stone : Int)
      ∧ r₂.stolen_iron
          = ((proportional_take (lootable (refreshStorage S.buildings tgt0))
              r.carry_capacity).iron : Int)
      ∧ 0 ≤ r₂.stolen_food ∧ 0 ≤ r₂.stolen_wood ∧ 0 ≤ r₂.stolen_stone ∧ 0 ≤ r₂.stolen_iron

/-- **C8**: when the arrival pass resolves a raid whose attacker and
target cities both exist, each of the target's four resource stocks is
reduced by exactly the taken amount but never ends below the target's
freshly recomputed protected floor for that resource, and the raid's
stolen amounts are set to exactly the taken amounts, never negative. -/
theorem claim_C8_arrival_loot (S : WorldState) (r : Raid) (t : Int) (a tgt0 : City)
    (hA : findCity S r.attacker_city_id = some a)
    (hT : findCity S r.target_city_id = some tgt0)
    (hr : (findRaid S r.id).isSome) : arrivalLootPost S r t tgt0 := by
  obtain ⟨hcity, hraid⟩ := processArrival_found_char S r t a tgt0 hA hT
  refine ⟨hcity, ?_, arrivalRaidUpdate r _, hraid hr, rfl, rfl, rfl, rfl,
    Int.natCast_nonneg _, Int.natCast_nonneg _, Int.natCast_nonneg _, Int.natCast_nonneg _⟩
  intro c₂ h₂
  rw [hcity] at h₂
  cases h₂
  exact ⟨le_max_right _ _, le_max_right _ _, le_max_right _ _, le_max_right _ _⟩

/-- Sample cities and raid for the C8 and C10 witnesses. -/
def sampleAtkCity : City :=
  ⟨1, 1, 500, 500, 500, 500, 7000, 7000, 4200, 2800, 1890, 1890, 1134, 756,
    some 0, 30, 30, 20, 10⟩

def sampleTgtCityRich : City :=
  ⟨2, 1, 2000, 500, 500, 500, 7000, 7000, 4200, 2800, 1890, 1890, 1134, 756,
    some 0, 30, 30, 20, 10⟩

def sampleTgtCityPoor : City :=
  ⟨2, 1, 100, 500, 500, 500, 7000, 7000, 4200, 2800, 1890, 1890, 1134, 756,
    some 0, 30, 30, 20, 10⟩

def sampleRaid : Raid :=
  ⟨1, 1, 2, 60, 0, 0, 0, 0, 0, "enroute", 90, 30, 90, none, none⟩

def sampleStateRich : WorldState :=
  ⟨[sampleAtkCity, sampleTgtCityRich], [], [], [sampleRaid], [], [], [], [], []⟩

def sampleStatePoor : WorldState :=
  ⟨[sampleAtkCity, sampleTgtCityPoor], [], [], [sampleRaid], [], [], [], [], []⟩

/-- Witness for C8: attacker city 1 raids city 2 (2000 food over a 1750
refreshed floor) with capacity 60. -/
theorem claim_C8_witness :
    (findCity sampleStateRich sampleRaid.attacker_city_id = some sampleAtkCity
      ∧ findCity sampleStateRich sampleRaid.target_city_id = some sampleTgtCityRich
      ∧ (findRaid sampleStateRich sampleRaid.id).isSome)
    ∧ arrivalLootPost sampleStateRich sampleRaid 90 sampleTgtCityRich :=
  ⟨⟨by decide, by decide, by decide⟩,
    claim_C8_arrival_loot sampleStateRich sampleRaid 90 sampleAtkCity sampleTgtCityRich
      (by decide) (by decide) (by decide)⟩

/-! ### C10: raiding can raise a stock up to the protected floor -/

/-- Per-resource stock of a city row. -/
def City.stockOf (c : City) : Res → Int
  | .food => c.food
  | .wood => c.wood
  | .stone => c.stone
  | .iron => c.iron

/-- Per-resource protected floor of a city row. -/
def City.protOf (c : City) : Res → Int
  | .food => c.protected_food
  | .wood => c.protected_wood
  | .stone => c.protected_stone
  | .iron => c.protected_iron

theorem lootApply_stockOf (c : City) (taken : ResAmounts) (k : Res) :
    (lootApply c taken).stockOf k = max (c.stockOf k - (taken.get k : Int)) (c.protOf k) := by
  cases k <;> rfl

theorem lootable_get (c : City) (k : Res) :
    (lootable c).get k = (c.stockOf k - c.protOf k).toNat := by
  cases k <;> rfl

/-- The statement of C10: if at arrival (both cities existing) the
storage-refreshed target's stock of some resource is strictly below its
recomputed protected floor, the arrival pass raises that stock to exactly
the protected floor — being raided can increase a target's resources. -/
def raidRaisesPost (S : WorldState) (r : Raid) (t : Int) (tgt0 : City) : Prop :=
  ∀ k : Res,
    (refreshStorage S.buildings tgt0).stockOf k < (refreshStorage S.buildings tgt0).protOf k →
    ∃ c₂, findCity (processArrival S r t) r.target_city_id = some c₂
      ∧ c₂.stockOf k = (refreshStorage S.buildings tgt0).protOf k
      ∧ (refreshStorage S.buildings tgt0).stockOf k < c₂.stockOf k

/-- **C10** (implicit): when a raid arrives with both cities existing and
the target's stock of some resource is strictly below its recomputed
protected floor, the arrival pass raises that stock up to exactly the
protected floor, because the taken amount for that resource is 0 (its
lootable amount is 0) and the stock is then clamped upward with
`max(stock - taken, protected)`. -/
theorem claim_C10_raid_raises_to_floor (S : WorldState) (r : Raid) (t : Int) (a tgt0 : City)
    (hA : findCity S r.attacker_city_id = some a)
    (hT : findCity S r.target_city_id = some tgt0) : raidRaisesPost S r t tgt0 := by
  intro k hk
  obtain ⟨hcity, _⟩ := processArrival_found_char S r t a tgt0 hA hT
  refine ⟨_, hcity, ?_, ?_⟩
  · rw [lootApply_stockOf]
    have hloot : (lootable (refreshStorage S.buildings tgt0)).get k = 0 := by
      rw [lootable_get]
      omega
    have htaken : (proportional_take (lootable (refreshStorage S.buildings tgt0))
        r.carry_capacity).get k = 0 :=
      Nat.le_zero.mp (hloot ▸ proportional_take_le _ _ k)
    rw [htaken]
    push_cast
    omega
  · rw [lootApply_stockOf]
    have htaken : ((proportional_take (lootable (refreshStorage S.buildings tgt0))
        r.carry_capacity).get k : Int) ≤ 0 := by
      have hloot : (lootable (refreshStorage S.buildings tgt0)).get k = 0 := by
        rw [lootable_get]
        omega
      have := hloot ▸ proportional_take_le (lootable (refreshStorage S.buildings tgt0))
        r.carry_capacity k
      omega
    omega

/-- Witness for C10: the target's food stock (100) is below its
refreshed protected floor (1750), so the raid raises it to 1750. -/
theorem claim_C10_witness :
    (findCity sampleStatePoor sampleRaid.attacker_city_id = some sampleAtkCity
      ∧ findCity sampleStatePoor sampleRaid.target_city_id = some sampleTgtCityPoor)
    ∧ raidRaisesPost sampleStatePoor sampleRaid 90 sampleTgtCityPoor :=
  ⟨⟨by decide, by decide⟩,
    claim_C10_raid_raises_to_floor sampleStatePoor sampleRaid 90 sampleAtkCity
      sampleTgtCityPoor (by decide) (by decide)⟩

/-! ### C9: missing referenced cities degrade gracefully -/

/-- The statement of C9.  Arrival pass on a raid one of whose cities is
missing: the raid row is force-transitioned to `resolved` with
`resolved_at` set and nothing else changes (no loot moved, no combat, no
troop changes).  Return pass on a raid whose attacker city is missing:
the raid row still transitions to `resolved` (with `resolved_at` set) and
no city's stocks change — the loot is forfeited rather than blocking the
scheduler forever. -/
def missingCityPost (S : WorldState) (r : Raid) (t : Int) : Prop :=
  ((findCity S r.attacker_city_id = none ∨ findCity S r.target_city_id = none) →
    (processArrival S r t).cities = S.cities
    ∧ (processArrival S r t).cityTroops = S.cityTroops
    ∧ (processArrival S r t).raidTroops = S.raidTroops
    ∧ (processArrival S r t).raidDefTroops = S.raidDefTroops
    ∧ ((findRaid S r.id).isSome →
        findRaid (processArrival S r t) r.id
          = some { r with status := "resolved", resolved_at := some t }))
  ∧ (findCity S r.attacker_city_id = none →
      (processReturn S r t).cities = S.cities
      ∧ ((findRaid S r.id).isSome →
          findRaid (processReturn S r t) r.id
            = some { r with status := "resolved", resolved_at := some t }))

/-- **C9**: if a due raid references a missing city, the resolver
degrades gracefully instead of leaving the raid stuck: the arrival pass
on a raid whose attacker or target city does not exist force-transitions
it to `resolved` (setting `resolved_at`, with no loot moved and no
combat), and the return pass on a raid whose attacker city does not
exist still transitions it to `resolved` with the loot forfeited rather
than blocking forever. -/
theorem claim_C9_missing_city (S : WorldState) (r : Raid) (t : Int) :
    missingCityPost S r t := by
  constructor
  · intro hmiss
    have harr : processArrival S r t
        = updateRaidRow S r.id { r with status := "resolved", resolved_at := some t } := by
      unfold processArrival
      rcases hmiss with h | h
      · rw [h]
      · rw [h]
        cases findCity S r.attacker_city_id <;> rfl
    rw [harr]
    refine ⟨rfl, rfl, rfl, rfl, fun hsome => ?_⟩
    rw [findRaid_updateRaidRow _ r.id { r with status := "resolved", resolved_at := some t } rfl]
    cases hfind : findRaid S r.id with
    | none => rw [hfind] at hsome; simp at hsome
    | some x => rfl
  · intro hmiss
    have hret : processReturn S r t
        = { return_troops_from_raid
              (updateRaidRow S r.id { r with status := "resolved", resolved_at := some t }) r
            with mails := (return_troops_from_raid
              (updateRaidRow S r.id { r with status := "resolved", resolved_at := some t })
              r).mails ++ [(r.id, t)] } := by
      unfold processReturn
      rw [hmiss]
    rw [hret]
    constructor
    · show (return_troops_from_raid
        (updateRaidRow S r.id { r with status := "resolved", resolved_at := some t }) r).cities
        = S.cities
      rw [return_troops_cities, updateRaidRow_cities]
    · intro hsome
      have hraids : ({ return_troops_from_raid
            (updateRaidRow S r.id { r with status := "resolved", resolved_at := some t }) r
          with mails := (return_troops_from_raid
            (updateRaidRow S r.id { r with status := "resolved", resolved_at := some t })
            r).mails ++ [(r.id, t)] } : WorldState).raids
          = (updateRaidRow S r.id { r with status := "resolved", resolved_at := some t }).raids := by
        show (return_troops_from_raid
          (updateRaidRow S r.id { r with status := "resolved", resolved_at := some t }) r).raids
          = _
        rw [return_troops_raids]
      rw [findRaid_eq_of_raids_eq hraids,
        findRaid_updateRaidRow _ r.id { r with status := "resolved", resolved_at := some t } rfl]
      cases hfind : findRaid S r.id with
      | none => rw [hfind] at hsome; simp at hsome
      | some x => rfl

/-! ### Structure of the two per-raid steps -/

theorem processArrival_cases (S : WorldState) (r : Raid) (t : Int) :
    (∃ tgt0, findCity S r.target_city_id = some tgt0
      ∧ processArrival S r t
        = updateRaidRow
            (apply_casualties_at_arrival
              (mapCityId
                (mapCityId (mapCityId S r.attacker_city_id (refreshStorage S.buildings))
                  r.target_city_id (refreshStorage S.buildings))
                r.target_city_id
                (fun c => lootApply c (proportional_take
                  (lootable (refreshStorage S.buildings tgt0)) r.carry_capacity)))
              r)
            r.id
            (arrivalRaidUpdate r (proportional_take
              (lootable (refreshStorage S.buildings tgt0)) r.carry_capacity)))
    ∨ processArrival S r t
        = updateRaidRow S r.id { r with status := "resolved", resolved_at := some t } := by
  unfold processArrival
  cases hA : findCity S r.attacker_city_id with
  | none => right; rfl
  | some a =>
    cases hT : findCity S r.target_city_id with
    | none => right; rfl
    | some tgt0 => exact Or.inl ⟨tgt0, rfl, rfl⟩

theorem processReturn_raids (S : WorldState) (r : Raid) (t : Int) :
    (processReturn S r t).raids
      = (updateRaidRow S r.id { r with status := "resolved", resolved_at := some t }).raids := by
  unfold processReturn
  cases findCity S r.attacker_city_id with
  | none => exact return_troops_raids _ r
  | some a => exact return_troops_raids _ r

theorem mapCityId_city_ids (S : WorldState) (cid : Nat) (f : City → City)
    (hid : ∀ c, (f c).id = c.id) :
    (mapCityId S cid f).cities.map (·.id) = S.cities.map (·.id) := by
  unfold mapCityId
  rw [List.map_map]
  refine List.map_congr_left ?_
  intro c _
  by_cases h : (c.id == cid) = true
  · simp only [Function.comp_apply, if_pos h, hid]
  · simp only [Function.comp_apply, if_neg h]

theorem updateRaidRow_raid_ids (S : WorldState) (rid : Nat) (v : Raid) (hv : v.id = rid) :
    (updateRaidRow S rid v).raids.map (·.id) = S.raids.map (·.id) := by
  unfold updateRaidRow
  rw [List.map_map]
  refine List.map_congr_left ?_
  intro x _
  by_cases h : (x.id == rid) = true
  · simp only [Function.comp_apply, if_pos h, hv]
    have : x.id = rid := by simpa using h
    rw [this]
  · simp only [Function.comp_apply, if_neg h]

theorem processArrival_city_ids (S : WorldState) (r : Raid) (t : Int) :
    (processArrival S r t).cities.map (·.id) = S.cities.map (·.id) := by
  rcases processArrival_cases S r t with ⟨tgt0, _, heq⟩ | heq <;> rw [heq]
  · show (apply_casualties_at_arrival _ r).cities.map (·.id) = _
    rw [apply_casualties_cities]
    rw [mapCityId_city_ids _ _ _ (fun c => lootApply_id c _),
      mapCityId_city_ids _ _ _ (refreshStorage_id S.buildings),
      mapCityId_city_ids _ _ _ (refreshStorage_id S.buildings)]
  · rfl

theorem processArrival_raid_ids (S : WorldState) (r : Raid) (t : Int) :
    (processArrival S r t).raids.map (·.id) = S.raids.map (·.id) := by
  rcases processArrival_cases S r t with ⟨tgt0, _, heq⟩ | heq <;> rw [heq]
  · rw [updateRaidRow_raid_ids _ r.id
      (arrivalRaidUpdate r (proportional_take
        (lootable (refreshStorage S.buildings tgt0)) r.carry_capacity)) rfl]
    rw [apply_casualties_raids, mapCityId_raids, mapCityId_raids, mapCityId_raids]
  · rw [updateRaidRow_raid_ids _ r.id
      { r with status := "resolved", resolved_at := some t } rfl]

theorem processReturn_raid_ids (S : WorldState) (r : Raid) (t : Int) :
    (processReturn S r t).raids.map (·.id) = S.raids.map (·.id) := by
  rw [processReturn_raids, updateRaidRow_raid_ids _ r.id
    { r with status := "resolved", resolved_at := some t } rfl]

theorem processArrival_upgrades (S : WorldState) (r : Raid) (t : Int) :
    (processArrival S r t).upgrades = S.upgrades := by
  rcases processArrival_cases S r t with ⟨tgt0, _, heq⟩ | heq <;> rw [heq]
  · show (apply_casualties_at_arrival _ r).upgrades = _
    rw [apply_casualties_upgrades]
    rfl
  · rfl

theorem processReturn_upgrades (S : WorldState) (r : Raid) (t : Int) :
    (processReturn S r t).upgrades = S.upgrades := by
  unfold processReturn
  cases findCity S r.attacker_city_id with
  | none => exact return_troops_upgrades _ r
  | some a => exact return_troops_upgrades _ r

/-- Rows of the arrival step's raid table: every row is either an
unchanged row of the input with a different id than the processed raid,
or carries the step's post-status. -/
theorem processArrival_raids_mem (S : WorldState) (r : Raid) (t : Int) (y : Raid)
    (hy : y ∈ (processArrival S r t).raids) :
    (y ∈ S.raids ∧ y.id ≠ r.id) ∨ y.status = "returning" ∨ y.status = "resolved" := by
  rcases processArrival_cases S r t with ⟨tgt0, _, heq⟩ | heq <;> rw [heq] at hy
  · have hy₂ : y ∈ (updateRaidRow S r.id
        (arrivalRaidUpdate r (proportional_take
          (lootable (refreshStorage S.buildings tgt0)) r.carry_capacity))).raids := by
      revert hy
      show y ∈ (updateRaidRow _ r.id _).raids → _
      unfold updateRaidRow
      rw [apply_casualties_raids, mapCityId_raids, mapCityId_raids, mapCityId_raids]
      exact id
    rcases List.mem_map.mp hy₂ with ⟨z, hz, hmap⟩
    by_cases h : (z.id == r.id) = true
    · rw [if_pos h] at hmap
      right; left
      rw [← hmap]
      rfl
    · rw [if_neg h] at hmap
      subst hmap
      exact Or.inl ⟨hz, by simpa using h⟩
  · rcases List.mem_map.mp hy with ⟨z, hz, hmap⟩
    by_cases h : (z.id == r.id) = true
    · rw [if_pos h] at hmap
      right; right
      rw [← hmap]
    · rw [if_neg h] at hmap
      subst hmap
      exact Or.inl ⟨hz, by simpa using h⟩

theorem processReturn_raids_mem (S : WorldState) (r : Raid) (t : Int) (y : Raid)
    (hy : y ∈ (processReturn S r t).raids) :
    (y ∈ S.raids ∧ y.id ≠ r.id) ∨ y.status = "resolved" := by
  rw [processReturn_raids] at hy
  rcases List.mem_map.mp hy with ⟨z, hz, hmap⟩
  by_cases h : (z.id == r.id) = true
  · rw [if_pos h] at hmap
    right
    rw [← hmap]
  · rw [if_neg h] at hmap
    subst hmap
    exact Or.inl ⟨hz, by simpa using h⟩

/-- A row whose id differs from the processed raid's is untouched by the
arrival step. -/
theorem processArrival_mem_other (S : WorldState) (r : Raid) (t : Int) (z : Raid)
    (hz : z ∈ S.raids) (hne : z.id ≠ r.id) : z ∈ (processArrival S r t).raids := by
  have key : ∀ (X : WorldState) (v : Raid), X.raids = S.raids →
      z ∈ (updateRaidRow X r.id v).raids := by
    intro X v hX
    unfold updateRaidRow
    rw [hX]
    refine List.mem_map.mpr ⟨z, hz, ?_⟩
    rw [if_neg (by simpa using hne)]
  rcases processArrival_cases S r t with ⟨tgt0, _, heq⟩ | heq <;> rw [heq]
  · exact key _ _ (by rw [apply_casualties_raids, mapCityId_raids, mapCityId_raids,
      mapCityId_raids])
  · exact key _ _ rfl

theorem processReturn_mem_other (S : WorldState) (r : Raid) (t : Int) (z : Raid)
    (hz : z ∈ S.raids) (hne : z.id ≠ r.id) : z ∈ (processReturn S r t).raids := by
  have h1 : z ∈ (updateRaidRow S r.id
      { r with status := "resolved", resolved_at := some t }).raids := by
    unfold updateRaidRow
    refine List.mem_map.mpr ⟨z, hz, ?_⟩
    rw [if_neg (by simpa using hne)]
  have h2 := processReturn_raids S r t
  rw [h2]
  exact h1

/-! ### Pass-level facts -/

/-- An arrival-due raid row at time `t`. -/
def arrDue (t : Int) (r : Raid) : Prop := r.status = "enroute" ∧ r.arrives_at ≤ t

/-- A return-due raid row at time `t` (non-null `returns_at` only, as in
the query filter). -/
def retDue (t : Int) (r : Raid) : Prop :=
  r.status = "returning" ∧ ∃ x, r.returns_at = some x ∧ x ≤ t

theorem arrFold_no_due (t : Int) :
    ∀ (todo : List Raid) (A : WorldState),
      (∀ y ∈ A.raids, arrDue t y → y.id ∈ todo.map (·.id)) →
      ∀ y ∈ (todo.foldl (fun acc x => processArrival acc x t) A).raids, ¬ arrDue t y := by
  intro todo
  induction todo with
  | nil =>
    intro A hinv y hy hdue
    simpa using hinv y hy hdue
  | cons x todo ih =>
    intro A hinv y hy hdue
    rw [List.foldl_cons] at hy
    refine ih (processArrival A x t) ?_ y hy hdue
    intro z hz hzdue
    rcases processArrival_raids_mem A x t z hz with ⟨hzA, hzne⟩ | hst | hst
    · have hmem := hinv z hzA hzdue
      simp only [List.map_cons, List.mem_cons] at hmem
      rcases hmem with h | h
      · exact absurd h hzne
      · simpa using h
    · rw [hzdue.1] at hst
      exact absurd hst (by decide)
    · rw [hzdue.1] at hst
      exact absurd hst (by decide)

theorem retFold_no_due (t : Int) :
    ∀ (todo : List Raid) (A : WorldState),
      (∀ y ∈ A.raids, retDue t y → y.id ∈ todo.map (·.id)) →
      ∀ y ∈ (todo.foldl (fun acc x => processReturn acc x t) A).raids, ¬ retDue t y := by
  intro todo
  induction todo with
  | nil =>
    intro A hinv y hy hdue
    simpa using hinv y hy hdue
  | cons x todo ih =>
    intro A hinv y hy hdue
    rw [List.foldl_cons] at hy
    refine ih (processReturn A x t) ?_ y hy hdue
    intro z hz hzdue
    rcases processReturn_raids_mem A x t z hz with ⟨hzA, hzne⟩ | hst
    · have hmem := hinv z hzA hzdue
      simp only [List.map_cons, List.mem_cons] at hmem
      rcases hmem with h | h
      · exact absurd h hzne
      · simpa using h
    · rw [hzdue.1] at hst
      exact absurd hst (by decide)

theorem retFold_enroute_mem (t : Int) :
    ∀ (todo : List Raid) (A : WorldState),
      ∀ y ∈ (todo.foldl (fun acc x => processReturn acc x t) A).raids,
        y.status = "enroute" → y ∈ A.raids := by
  intro todo
  induction todo with
  | nil => intro A y hy _; simpa using hy
  | cons x todo ih =>
    intro A y hy hst
    rw [List.foldl_cons] at hy
    rcases processReturn_raids_mem A x t y (ih (processReturn A x t) y hy hst)
      with ⟨hyA, _⟩ | hr
    · exact hyA
    · rw [hst] at hr
      exact absurd hr (by decide)

theorem arrFold_mem_other (t : Int) :
    ∀ (todo : List Raid) (A : WorldState) (z : Raid), z ∈ A.raids →
      (∀ x ∈ todo, z.id ≠ x.id) →
      z ∈ (todo.foldl (fun acc x => processArrival acc x t) A).raids := by
  intro todo
  induction todo with
  | nil => intro A z hz _; simpa using hz
  | cons x todo ih =>
    intro A z hz hne
    rw [List.foldl_cons]
    exact ih (processArrival A x t) z
      (processArrival_mem_other A x t z hz (hne x (List.mem_cons_self x todo)))
      (fun x₂ hx₂ => hne x₂ (List.mem_cons_of_mem x hx₂))

theorem arrFold_upgrades (t : Int) :
    ∀ (todo : List Raid) (A : WorldState),
      (todo.foldl (fun acc x => processArrival acc x t) A).upgrades = A.upgrades := by
  intro todo
  induction todo with
  | nil => intro A; rfl
  | cons x todo ih =>
    intro A
    rw [List.foldl_cons, ih, processArrival_upgrades]

theorem retFold_upgrades (t : Int) :
    ∀ (todo : List Raid) (A : WorldState),
      (todo.foldl (fun acc x => processReturn acc x t) A).upgrades = A.upgrades := by
  intro todo
  induction todo with
  | nil => intro A; rfl
  | cons x todo ih =>
    intro A
    rw [List.foldl_cons, ih, processReturn_upgrades]

theorem arrival_pass_no_due (S : WorldState) (t : Int) :
    ∀ y ∈ (resolve_arrivals_to_returning_at S t).1.raids, ¬ arrDue t y := by
  intro y hy
  refine arrFold_no_due t
    (S.raids.filter (fun r => r.status == "enroute" && decide (r.arrives_at ≤ t))) S ?_ y hy
  intro z hz hzdue
  refine List.mem_map.mpr ⟨z, List.mem_filter.mpr ⟨hz, ?_⟩, rfl⟩
  simp only [Bool.and_eq_true, beq_iff_eq, decide_eq_true_eq]
  exact ⟨hzdue.1, hzdue.2⟩

theorem return_pass_no_due (S : WorldState) (t : Int) :
    ∀ y ∈ (resolve_returns_to_resolved_at S t).1.raids, ¬ retDue t y := by
  intro y hy
  refine retFold_no_due t
    (S.raids.filter (fun r => r.status == "returning"
      && match r.returns_at with
         | some x => decide (x ≤ t)
         | none => false)) S ?_ y hy
  intro z hz hzdue
  refine List.mem_map.mpr ⟨z, List.mem_filter.mpr ⟨hz, ?_⟩, rfl⟩
  obtain ⟨hst, x, hx, hxle⟩ := hzdue
  simp only [Bool.and_eq_true, beq_iff_eq]
  refine ⟨hst, ?_⟩
  rw [hx]
  simpa using hxle

theorem return_pass_enroute_mem (S : WorldState) (t : Int) :
    ∀ y ∈ (resolve_returns_to_resolved_at S t).1.raids, y.status = "enroute" → y ∈ S.raids :=
  fun y hy hst => retFold_enroute_mem t _ S y hy hst

theorem arrival_pass_upgrades (S : WorldState) (t : Int) :
    (resolve_arrivals_to_returning_at S t).1.upgrades = S.upgrades :=
  arrFold_upgrades t _ S

theorem return_pass_upgrades (S : WorldState) (t : Int) :
    (resolve_returns_to_resolved_at S t).1.upgrades = S.upgrades :=
  retFold_upgrades t _ S

theorem refreshCityAfterUpgrade_raids (S : WorldState) (cid : Nat) :
    (refreshCityAfterUpgrade S cid).raids = S.raids := by
  unfold refreshCityAfterUpgrade
  cases findCity S cid <;> rfl

theorem refreshCityAfterUpgrade_upgrades (S : WorldState) (cid : Nat) :
    (refreshCityAfterUpgrade S cid).upgrades = S.upgrades := by
  unfold refreshCityAfterUpgrade
  cases findCity S cid <;> rfl

theorem foldl_refresh_raids :
    ∀ (ids : List Nat) (A : WorldState),
      (ids.foldl refreshCityAfterUpgrade A).raids = A.raids := by
  intro ids
  induction ids with
  | nil => intro A; rfl
  | cons i ids ih =>
    intro A
    rw [List.foldl_cons, ih, refreshCityAfterUpgrade_raids]

theorem foldl_refresh_upgrades :
    ∀ (ids : List Nat) (A : WorldState),
      (ids.foldl refreshCityAfterUpgrade A).upgrades = A.upgrades := by
  intro ids
  induction ids with
  | nil => intro A; rfl
  | cons i ids ih =>
    intro A
    rw [List.foldl_cons, ih, refreshCityAfterUpgrade_upgrades]

theorem complete_upgrades_raids (S : WorldState) (t : Int) :
    (complete_due_upgrades_at S t).1.raids = S.raids := by
  simp only [complete_due_upgrades_at]
  rw [foldl_refresh_raids]

theorem complete_upgrades_upgrades (S : WorldState) (t : Int) :
    (complete_due_upgrades_at S t).1.upgrades
      = S.upgrades.filter (fun u => !(decide (u.completes_at ≤ t))) := by
  simp only [complete_due_upgrades_at]
  rw [foldl_refresh_upgrades]

theorem advance_cities_raids (S : WorldState) (t : Int) :
    (advance_cities S t).1.raids = S.raids := rfl

theorem advance_cities_upgrades (S : WorldState) (t : Int) :
    (advance_cities S t).1.upgrades = S.upgrades := rfl

/-- No due event survives one full scheduler step at time `now`. -/
def noDueLeft (S : WorldState) (now : Int) : Prop :=
  (∀ y ∈ S.raids, y.status = "enroute" → now < y.arrives_at)
  ∧ (∀ y ∈ S.raids, y.status = "returning" → ∀ x, y.returns_at = some x → now < x)
  ∧ (∀ u ∈ S.upgrades, now < u.completes_at)

theorem step_clears (S : WorldState) (now : Int) :
    noDueLeft (resolve_returns_to_resolved_at
      (resolve_arrivals_to_returning_at
        (complete_due_upgrades_at (advance_cities S now).1 now).1 now).1 now).1 now := by
  refine ⟨?_, ?_, ?_⟩
  · intro y hy hst
    have hyS₃ := return_pass_enroute_mem _ now y hy hst
    have hnd := arrival_pass_no_due _ now y hyS₃
    by_contra hle
    exact hnd ⟨hst, by omega⟩
  · intro y hy hst x hx
    have hnd := return_pass_no_due _ now y hy
    by_contra hle
    exact hnd ⟨hst, x, hx, by omega⟩
  · intro u hu
    rw [return_pass_upgrades, arrival_pass_upgrades, complete_upgrades_upgrades] at hu
    have := List.of_mem_filter hu
    simp only [Bool.not_eq_true', decide_eq_false_iff_not, not_le] at this
    exact this

/-! ### City clocks through a scheduler step -/

/-- The effect of `apply_city_tick` on `last_tick_at` alone (it depends
only on the previous value and the target time). -/
def advLast (t : Int) : Option Int → Option Int
  | none => none
  | some l =>
    if Int.fdiv (t - l) 60 ≤ 0 then some l else some (l + 60 * Int.fdiv (t - l) 60)

theorem apply_city_tick_last (bs : List Building) (c : City) (t : Int) :
    (apply_city_tick bs c t).1.last_tick_at = advLast t c.last_tick_at := by
  cases hl : c.last_tick_at with
  | none =>
    simp only [apply_city_tick, hl, Option.getD_none, advLast]
    have h0 : Int.fdiv (t - t) 60 ≤ 0 := by rw [sub_self, Int.zero_fdiv]
    rw [if_pos h0]
    exact hl
  | some l =>
    simp only [apply_city_tick, hl, Option.getD_some, advLast]
    by_cases h : Int.fdiv (t - l) 60 ≤ 0
    · rw [if_pos h, if_pos h]
      exact hl
    · rw [if_neg h, if_neg h]

theorem advLast_bounded (t : Int) (o : Option Int) :
    advLast t o = o ∨ ∃ v, advLast t o = some v ∧ v ≤ t := by
  cases o with
  | none => exact Or.inl rfl
  | some l =>
    by_cases h : Int.fdiv (t - l) 60 ≤ 0
    · left
      simp [advLast, if_pos h]
    · right
      refine ⟨l + 60 * Int.fdiv (t - l) 60, by simp [advLast, if_neg h], ?_⟩
      have hfm := Int.fdiv_add_fmod (t - l) 60
      have hnn := Int.fmod_nonneg' (t - l) (by norm_num : (0 : Int) < 60)
      omega

theorem advLast_final (now : Int) (o : Option Int) (l₂ : Int)
    (h : advLast now o = some l₂) :
    (l₂ ≤ now ∧ now - l₂ < 60) ∨ (now < l₂ ∧ o = some l₂) := by
  cases o with
  | none => simp [advLast] at h
  | some l =>
    by_cases hdv : Int.fdiv (now - l) 60 ≤ 0
    · rw [show advLast now (some l) = some l by simp [advLast, if_pos hdv]] at h
      injection h with h₂
      rcases le_or_lt l now with hc | hc
      · left
        refine ⟨by omega, ?_⟩
        by_contra hge
        have h60 : (60 : Int) ≤ now - l := by omega
        have h1 : (1 : Int) ≤ Int.fdiv (now - l) 60 := by
          rw [Int.fdiv_eq_ediv _ (by norm_num : (0 : Int) ≤ 60)]
          rw [Int.le_ediv_iff_mul_le (by norm_num : (0 : Int) < 60)]
          omega
        omega
      · right
        refine ⟨by omega, ?_⟩
        rw [h₂]
    · rw [show advLast now (some l) = some (l + 60 * Int.fdiv (now - l) 60) by
        simp [advLast, if_neg hdv]] at h
      injection h with h₂
      left
      have hfm := Int.fdiv_add_fmod (now - l) 60
      have hnn := Int.fmod_nonneg' (now - l) (by norm_num : (0 : Int) < 60)
      have hlt := Int.fmod_lt_of_pos (now - l) (by norm_num : (0 : Int) < 60)
      omega

/-- The `last_tick_at` column of every city row, in table order. -/
def lasts (S : WorldState) : List (Option Int) := S.cities.map (·.last_tick_at)

theorem lasts_eq_of_cities_eq {S₁ S₂ : WorldState} (h : S₁.cities = S₂.cities) :
    lasts S₁ = lasts S₂ := by
  unfold lasts
  rw [h]

theorem advance_cities_cities (S : WorldState) (t : Int) :
    (advance_cities S t).1.cities
      = S.cities.map (fun c => (apply_city_tick S.buildings c t).1) := by
  suffices h : ∀ (l : List City) (acc : List City × Int × List Nat),
      (l.foldl (advanceCityStep S.buildings t) acc).1
        = acc.1 ++ l.map (fun c => (apply_city_tick S.buildings c t).1) by
    show (S.cities.foldl (advanceCityStep S.buildings t) ([], 0, [])).1 = _
    rw [h]
    simp
  intro l
  induction l with
  | nil => intro acc; simp
  | cons c l ih =>
    intro acc
    rw [List.foldl_cons, ih]
    simp [advanceCityStep]

theorem lasts_advance (S : WorldState) (t : Int) :
    lasts (advance_cities S t).1 = (lasts S).map (advLast t) := by
  unfold lasts
  rw [advance_cities_cities, List.map_map, List.map_map]
  refine List.map_congr_left ?_
  intro c _
  simp only [Function.comp_apply]
  exact apply_city_tick_last S.buildings c t

theorem mapCityId_lasts (S : WorldState) (cid : Nat) (f : City → City)
    (hf : ∀ c, (f c).last_tick_at = c.last_tick_at) :
    lasts (mapCityId S cid f) = lasts S := by
  unfold lasts mapCityId
  rw [List.map_map]
  refine List.map_congr_left ?_
  intro c _
  by_cases h : (c.id == cid) = true
  · simp only [Function.comp_apply, if_pos h, hf]
  · simp only [Function.comp_apply, if_neg h]

theorem processArrival_lasts (S : WorldState) (r : Raid) (t : Int) :
    lasts (processArrival S r t) = lasts S := by
  rcases processArrival_cases S r t with ⟨tgt0, _, heq⟩ | heq <;> rw [heq]
  · rw [lasts_eq_of_cities_eq (updateRaidRow_cities _ _ _),
      lasts_eq_of_cities_eq (apply_casualties_cities _ _),
      mapCityId_lasts _ r.target_city_id
        (fun c => lootApply c (proportional_take
          (lootable (refreshStorage S.buildings tgt0)) r.carry_capacity)) (fun c => rfl),
      mapCityId_lasts _ r.target_city_id (refreshStorage S.buildings) (fun c => rfl),
      mapCityId_lasts _ r.attacker_city_id (refreshStorage S.buildings) (fun c => rfl)]
  · exact lasts_eq_of_cities_eq (updateRaidRow_cities _ _ _)

theorem processReturn_lasts (S : WorldState) (r : Raid) (t : Int) :
    lasts (processReturn S r t) = lasts S := by
  unfold processReturn
  cases findCity S r.attacker_city_id with
  | none =>
    exact (lasts_eq_of_cities_eq (return_troops_cities _ r)).trans
      (lasts_eq_of_cities_eq (updateRaidRow_cities _ _ _))
  | some a =>
    refine Eq.trans (mapCityId_lasts _ _ _ ?_) ?_
    · intro c; rfl
    · exact (lasts_eq_of_cities_eq (return_troops_cities _ r)).trans
        (lasts_eq_of_cities_eq (updateRaidRow_cities _ _ _))

theorem arrFold_lasts (t : Int) :
    ∀ (todo : List Raid) (A : WorldState),
      lasts (todo.foldl (fun acc x => processArrival acc x t) A) = lasts A := by
  intro todo
  induction todo with
  | nil => intro A; rfl
  | cons x todo ih =>
    intro A
    rw [List.foldl_cons, ih, processArrival_lasts]

theorem retFold_lasts (t : Int) :
    ∀ (todo : List Raid) (A : WorldState),
      lasts (todo.foldl (fun acc x => processReturn acc x t) A) = lasts A := by
  intro todo
  induction todo with
  | nil => intro A; rfl
  | cons x todo ih =>
    intro A
    rw [List.foldl_cons, ih, processReturn_lasts]

theorem refreshCityAfterUpgrade_lasts (S : WorldState) (cid : Nat) :
    lasts (refreshCityAfterUpgrade S cid) = lasts S := by
  unfold refreshCityAfterUpgrade
  cases hc : findCity S cid with
  | none => rfl
  | some c₀ =>
    refine mapCityId_lasts _ _ _ ?_
    intro c
    cases S.buildings.find? (fun b => b.city_id == cid && b.btype == "townhall") <;> rfl

theorem foldl_refresh_lasts :
    ∀ (ids : List Nat) (A : WorldState),
      lasts (ids.foldl refreshCityAfterUpgrade A) = lasts A := by
  intro ids
  induction ids with
  | nil => intro A; rfl
  | cons i ids ih =>
    intro A
    rw [List.foldl_cons, ih, refreshCityAfterUpgrade_lasts]

theorem complete_upgrades_lasts (S : WorldState) (t : Int) :
    lasts (complete_due_upgrades_at S t).1 = lasts S := by
  simp only [complete_due_upgrades_at]
  rw [foldl_refresh_lasts]
  rfl

theorem iter_lasts (S : WorldState) (t : Int) :
    lasts (resolve_returns_to_resolved_at
      (resolve_arrivals_to_returning_at
        (complete_due_upgrades_at (advance_cities S t).1 t).1 t).1 t).1
    = (lasts S).map (advLast t) := by
  simp only [resolve_returns_to_resolved_at, resolve_arrivals_to_returning_at]
  rw [retFold_lasts, arrFold_lasts, complete_upgrades_lasts, lasts_advance]

/-! ### The scheduler loop measure -/

/-- Weight of one raid row in the loop measure: strictly decreasing
along the status chain `enroute → returning → resolved`. -/
def raidWeight (r : Raid) : Nat :=
  if r.status == "enroute" then 2 else if r.status == "returning" then 1 else 0

/-- Total raid weight of a raid table. -/
def measureRaids (L : List Raid) : Nat := (L.map raidWeight).sum

theorem measureRaids_cons (z : Raid) (L : List Raid) :
    measureRaids (z :: L) = raidWeight z + measureRaids L := rfl

theorem measureRaids_eq_counts :
    ∀ L : List Raid,
      measureRaids L
        = 2 * L.countP (fun r => r.status == "enroute")
          + L.countP (fun r => r.status == "returning") := by
  intro L
  induction L with
  | nil => rfl
  | cons x L ih =>
    rw [measureRaids_cons, List.countP_cons, List.countP_cons, ih]
    unfold raidWeight
    by_cases h1 : (x.status == "enroute") = true
    · have h2 : (x.status == "returning") = false := by
        have hs : x.status = "enroute" := by simpa using h1
        rw [hs]; decide
      rw [if_pos h1, if_pos h1, if_neg (by rw [h2]; exact Bool.false_ne_true)]
      omega
    · rw [if_neg h1, if_neg h1]
      by_cases h2 : (x.status == "returning") = true
      · rw [if_pos h2]
        omega
      · rw [if_neg h2]
        omega

theorem raidWeight_returning (r : Raid) (h : r.status = "returning") : raidWeight r = 1 := by
  unfold raidWeight
  rw [h]
  decide

theorem raidWeight_resolved (r : Raid) (h : r.status = "resolved") : raidWeight r = 0 := by
  unfold raidWeight
  rw [h]
  decide

theorem tickMeasure_eq (S : WorldState) :
    tickMeasure S = measureRaids S.raids + S.upgrades.length := by
  rw [tickMeasure, measureRaids_eq_counts]

/-- Exchange law for a keyed row update under distinct ids: replacing
the (unique) row whose id matches trades its weight for the new row's
weight. -/
theorem measureRaids_update (rid : Nat) (v : Raid) :
    ∀ (L : List Raid), (L.map (fun y => y.id)).Nodup →
      ∀ x ∈ L, x.id = rid →
      measureRaids (L.map (fun y => if y.id == rid then v else y)) + raidWeight x
        = measureRaids L + raidWeight v := by
  intro L
  induction L with
  | nil => intro _ x hx; exact absurd hx (List.not_mem_nil x)
  | cons z L ih =>
    intro hnd x hx hxid
    rw [List.map_cons, List.nodup_cons] at hnd
    obtain ⟨hzid, hndL⟩ := hnd
    rcases List.mem_cons.mp hx with hzx | hxL
    · subst hzx
      rw [List.map_cons, if_pos (by simpa using hxid)]
      have hrest : ∀ y ∈ L, (if y.id == rid then v else y) = y := by
        intro y hyL
        have hne : y.id ≠ rid := by
          intro hcon
          exact hzid (by rw [hxid, ← hcon]; exact List.mem_map_of_mem _ hyL)
        rw [if_neg (by simpa using hne)]
      rw [List.map_congr_left hrest, List.map_id']
      rw [measureRaids_cons, measureRaids_cons]
      omega
    · have hzne : z.id ≠ rid := by
        intro hcon
        exact hzid (by rw [hcon, ← hxid]; exact List.mem_map_of_mem _ hxL)
      rw [List.map_cons, if_neg (by simpa using hzne)]
      have hexch := ih hndL x hxL hxid
      rw [measureRaids_cons, measureRaids_cons]
      omega

/-- The arrival step's raid table is a keyed update of the input's by
a row of weight at most 1 (`returning` or `resolved`). -/
theorem processArrival_raids_eq (S : WorldState) (r : Raid) (t : Int) :
    ∃ v : Raid, v.id = r.id ∧ raidWeight v ≤ 1
      ∧ (processArrival S r t).raids
          = S.raids.map (fun y => if y.id == r.id then v else y) := by
  rcases processArrival_cases S r t with ⟨tgt0, _, heq⟩ | heq <;> rw [heq]
  · refine ⟨arrivalRaidUpdate r (proportional_take
      (lootable (refreshStorage S.buildings tgt0)) r.carry_capacity), rfl,
      le_of_eq (raidWeight_returning _ rfl), ?_⟩
    show (updateRaidRow _ r.id _).raids = _
    unfold updateRaidRow
    rw [apply_casualties_raids, mapCityId_raids, mapCityId_raids, mapCityId_raids]
  · exact ⟨{ r with status := "resolved", resolved_at := some t }, rfl,
      le_trans (le_of_eq (raidWeight_resolved _ rfl)) (Nat.zero_le 1), rfl⟩

/-- The return step's raid table is a keyed update of the input's by
a `resolved` row (weight 0). -/
theorem processReturn_raids_eq (S : WorldState) (r : Raid) (t : Int) :
    ∃ v : Raid, v.id = r.id ∧ raidWeight v = 0
      ∧ (processReturn S r t).raids
          = S.raids.map (fun y => if y.id == r.id then v else y) := by
  exact ⟨{ r with status := "resolved", resolved_at := some t }, rfl,
    raidWeight_resolved _ rfl, processReturn_raids S r t⟩

theorem arrFold_raid_ids (t : Int) :
    ∀ (todo : List Raid) (A : WorldState),
      ((todo.foldl (fun acc x => processArrival acc x t) A).raids).map (fun y => y.id)
        = A.raids.map (fun y => y.id) := by
  intro todo
  induction todo with
  | nil => intro A; rfl
  | cons x todo ih =>
    intro A
    rw [List.foldl_cons, ih, processArrival_raid_ids]

theorem retFold_raid_ids (t : Int) :
    ∀ (todo : List Raid) (A : WorldState),
      ((todo.foldl (fun acc x => processReturn acc x t) A).raids).map (fun y => y.id)
        = A.raids.map (fun y => y.id) := by
  intro todo
  induction todo with
  | nil => intro A; rfl
  | cons x todo ih =>
    intro A
    rw [List.foldl_cons, ih, processReturn_raid_ids]

/-- Each arrival processed from the due list trades a weight-2 row for a
row of weight at most 1, so the arrival fold loses at least one unit of
measure per due raid. -/
theorem arrFold_measure (t : Int) :
    ∀ (todo : List Raid) (A : WorldState),
      (A.raids.map (fun y => y.id)).Nodup →
      (todo.map (fun y => y.id)).Nodup →
      (∀ x ∈ todo, ∃ y ∈ A.raids, y.id = x.id ∧ raidWeight y = 2) →
      measureRaids ((todo.foldl (fun acc x => processArrival acc x t) A).raids)
          + todo.length
        ≤ measureRaids A.raids := by
  intro todo
  induction todo with
  | nil => intro A _ _ _; simp
  | cons x todo ih =>
    intro A hndA hndT hwit
    rw [List.foldl_cons, List.length_cons]
    rw [List.map_cons, List.nodup_cons] at hndT
    obtain ⟨hxT, hndT⟩ := hndT
    obtain ⟨y, hyA, hyid, hyw⟩ := hwit x (List.mem_cons_self x todo)
    obtain ⟨v, hvid, hvw, hraids⟩ := processArrival_raids_eq A x t
    have hm1 : measureRaids ((processArrival A x t).raids) + raidWeight y
        = measureRaids A.raids + raidWeight v := by
      rw [hraids]
      exact measureRaids_update x.id v A.raids hndA y hyA hyid
    have hndA₂ : ((processArrival A x t).raids.map (fun y => y.id)).Nodup := by
      rw [processArrival_raid_ids]
      exact hndA
    have hwit₂ : ∀ x₂ ∈ todo, ∃ y₂ ∈ (processArrival A x t).raids,
        y₂.id = x₂.id ∧ raidWeight y₂ = 2 := by
      intro x₂ hx₂
      obtain ⟨y₂, hy₂A, hy₂id, hy₂w⟩ := hwit x₂ (List.mem_cons_of_mem x hx₂)
      have hne : y₂.id ≠ x.id := by
        rw [hy₂id]
        intro hcon
        exact hxT (by rw [← hcon]; exact List.mem_map_of_mem _ hx₂)
      exact ⟨y₂, processArrival_mem_other A x t y₂ hy₂A hne, hy₂id, hy₂w⟩
    have hrec := ih (processArrival A x t) hndA₂ hndT hwit₂
    omega

/-- Each return processed from the due list trades a weight-1 row for a
weight-0 row, so the return fold loses at least one unit of measure per
due raid. -/
theorem retFold_measure (t : Int) :
    ∀ (todo : List Raid) (A : WorldState),
      (A.raids.map (fun y => y.id)).Nodup →
      (todo.map (fun y => y.id)).Nodup →
      (∀ x ∈ todo, ∃ y ∈ A.raids, y.id = x.id ∧ raidWeight y = 1) →
      measureRaids ((todo.foldl (fun acc x => processReturn acc x t) A).raids)
          + todo.length
        ≤ measureRaids A.raids := by
  intro todo
  induction todo with
  | nil => intro A _ _ _; simp
  | cons x todo ih =>
    intro A hndA hndT hwit
    rw [List.foldl_cons, List.length_cons]
    rw [List.map_cons, List.nodup_cons] at hndT
    obtain ⟨hxT, hndT⟩ := hndT
    obtain ⟨y, hyA, hyid, hyw⟩ := hwit x (List.mem_cons_self x todo)
    obtain ⟨v, hvid, hvw, hraids⟩ := processReturn_raids_eq A x t
    have hm1 : measureRaids ((processReturn A x t).raids) + raidWeight y
        = measureRaids A.raids + raidWeight v := by
      rw [hraids]
      exact measureRaids_update x.id v A.raids hndA y hyA hyid
    have hndA₂ : ((processReturn A x t).raids.map (fun y => y.id)).Nodup := by
      rw [processReturn_raid_ids]
      exact hndA
    have hwit₂ : ∀ x₂ ∈ todo, ∃ y₂ ∈ (processReturn A x t).raids,
        y₂.id = x₂.id ∧ raidWeight y₂ = 1 := by
      intro x₂ hx₂
      obtain ⟨y₂, hy₂A, hy₂id, hy₂w⟩ := hwit x₂ (List.mem_cons_of_mem x hx₂)
      have hne : y₂.id ≠ x.id := by
        rw [hy₂id]
        intro hcon
        exact hxT (by rw [← hcon]; exact List.mem_map_of_mem _ hx₂)
      exact ⟨y₂, processReturn_mem_other A x t y₂ hy₂A hne, hy₂id, hy₂w⟩
    have hrec := ih (processReturn A x t) hndA₂ hndT hwit₂
    omega

/-- The arrival pass's due set satisfies the fold's witness hypotheses
(every due row is itself an enroute row of the table). -/
theorem arrival_pass_measure (S : WorldState) (t : Int)
    (hnd : (S.raids.map (fun y => y.id)).Nodup) :
    measureRaids (resolve_arrivals_to_returning_at S t).1.raids
        + (S.raids.filter
            (fun r => r.status == "enroute" && decide (r.arrives_at ≤ t))).length
      ≤ measureRaids S.raids := by
  refine arrFold_measure t _ S hnd ?_ ?_
  · exact List.Nodup.sublist ((S.raids.filter_sublist).map (fun y => y.id)) hnd
  · intro x hx
    refine ⟨x, List.mem_of_mem_filter hx, rfl, ?_⟩
    have hc := List.of_mem_filter hx
    simp only [Bool.and_eq_true] at hc
    unfold raidWeight
    rw [if_pos hc.1]

theorem return_pass_measure (S : WorldState) (t : Int)
    (hnd : (S.raids.map (fun y => y.id)).Nodup) :
    measureRaids (resolve_returns_to_resolved_at S t).1.raids
        + (S.raids.filter (fun r => r.status == "returning"
            && match r.returns_at with
               | some x => decide (x ≤ t)
               | none => false)).length
      ≤ measureRaids S.raids := by
  refine retFold_measure t _ S hnd ?_ ?_
  · exact List.Nodup.sublist ((S.raids.filter_sublist).map (fun y => y.id)) hnd
  · intro x hx
    refine ⟨x, List.mem_of_mem_filter hx, rfl, ?_⟩
    have hc := List.of_mem_filter hx
    simp only [Bool.and_eq_true] at hc
    exact raidWeight_returning x (by simpa using hc.1)

/-! ### One scheduler step: measure decrease and id preservation -/

/-- Some event row is due at exactly time `t`. -/
def dueAt (S : WorldState) (t : Int) : Prop :=
  (∃ r ∈ S.raids, r.status = "enroute" ∧ r.arrives_at = t)
  ∨ (∃ r ∈ S.raids, r.status = "returning" ∧ r.returns_at = some t)
  ∨ (∃ u ∈ S.upgrades, u.completes_at = t)

theorem arrival_pass_raid_ids (S : WorldState) (t : Int) :
    (resolve_arrivals_to_returning_at S t).1.raids.map (fun y => y.id)
      = S.raids.map (fun y => y.id) :=
  arrFold_raid_ids t _ S

theorem return_pass_raid_ids (S : WorldState) (t : Int) :
    (resolve_returns_to_resolved_at S t).1.raids.map (fun y => y.id)
      = S.raids.map (fun y => y.id) :=
  retFold_raid_ids t _ S

theorem step_raid_ids (S : WorldState) (t : Int) :
    (resolve_returns_to_resolved_at
      (resolve_arrivals_to_returning_at
        (complete_due_upgrades_at (advance_cities S t).1 t).1 t).1 t).1.raids.map
          (fun y => y.id)
      = S.raids.map (fun y => y.id) := by
  rw [return_pass_raid_ids, arrival_pass_raid_ids, complete_upgrades_raids,
    advance_cities_raids]

/-- A full scheduler step at a time with a due event strictly shrinks the
loop measure: every due upgrade row is deleted and every due raid moves
strictly down the status chain. -/
theorem step_measure_lt (S : WorldState) (t : Int)
    (hnd : (S.raids.map (fun y => y.id)).Nodup) (hdue : dueAt S t) :
    tickMeasure (resolve_returns_to_resolved_at
      (resolve_arrivals_to_returning_at
        (complete_due_upgrades_at (advance_cities S t).1 t).1 t).1 t).1
      < tickMeasure S := by
  have hBr : (complete_due_upgrades_at (advance_cities S t).1 t).1.raids = S.raids := by
    rw [complete_upgrades_raids, advance_cities_raids]
  have hndB : ((complete_due_upgrades_at (advance_cities S t).1 t).1.raids.map
      (fun y => y.id)).Nodup := by
    rw [hBr]
    exact hnd
  have hndC : ((resolve_arrivals_to_returning_at
      (complete_due_upgrades_at (advance_cities S t).1 t).1 t).1.raids.map
      (fun y => y.id)).Nodup := by
    rw [arrival_pass_raid_ids, hBr]
    exact hnd
  have h1 := arrival_pass_measure (complete_due_upgrades_at (advance_cities S t).1 t).1 t hndB
  have h2 := return_pass_measure (resolve_arrivals_to_returning_at
      (complete_due_upgrades_at (advance_cities S t).1 t).1 t).1 t hndC
  rw [hBr] at h1
  have hup : (resolve_returns_to_resolved_at
      (resolve_arrivals_to_returning_at
        (complete_due_upgrades_at (advance_cities S t).1 t).1 t).1 t).1.upgrades
      = S.upgrades.filter (fun u => !(decide (u.completes_at ≤ t))) := by
    rw [return_pass_upgrades, arrival_pass_upgrades, complete_upgrades_upgrades,
      advance_cities_upgrades]
  have hulen := List.length_filter_le (fun u => !(decide (u.completes_at ≤ t))) S.upgrades
  rw [tickMeasure_eq, tickMeasure_eq, hup]
  rcases hdue with ⟨r, hr, hst, ha⟩ | ⟨r, hr, hst, hx⟩ | ⟨u, hu, hc⟩
  · have hmem : r ∈ S.raids.filter
        (fun r => r.status == "enroute" && decide (r.arrives_at ≤ t)) := by
      refine List.mem_filter.mpr ⟨hr, ?_⟩
      simp only [Bool.and_eq_true, beq_iff_eq, decide_eq_true_eq]
      exact ⟨hst, le_of_eq ha⟩
    have hpos := List.length_pos_of_mem hmem
    omega
  · have hrB : r ∈ (complete_due_upgrades_at (advance_cities S t).1 t).1.raids := by
      rw [hBr]
      exact hr
    have hsurv : r ∈ (resolve_arrivals_to_returning_at
        (complete_due_upgrades_at (advance_cities S t).1 t).1 t).1.raids := by
      show r ∈ (((complete_due_upgrades_at (advance_cities S t).1 t).1.raids.filter
          (fun r => r.status == "enroute" && decide (r.arrives_at ≤ t))).foldl
          (fun acc x => processArrival acc x t)
          (complete_due_upgrades_at (advance_cities S t).1 t).1).raids
      refine arrFold_mem_other t _ _ r hrB ?_
      intro x hxf
      have hxB := List.mem_of_mem_filter hxf
      have hxp := List.of_mem_filter hxf
      simp only [Bool.and_eq_true, beq_iff_eq, decide_eq_true_eq] at hxp
      intro hcon
      have hrx : r = x := List.inj_on_of_nodup_map hndB hrB hxB hcon
      rw [hrx, hxp.1] at hst
      exact absurd hst (by decide)
    have hmem : r ∈ (resolve_arrivals_to_returning_at
        (complete_due_upgrades_at (advance_cities S t).1 t).1 t).1.raids.filter
        (fun r => r.status == "returning"
          && match r.returns_at with
             | some x => decide (x ≤ t)
             | none => false) := by
      refine List.mem_filter.mpr ⟨hsurv, ?_⟩
      simp only [Bool.and_eq_true, beq_iff_eq]
      refine ⟨hst, ?_⟩
      rw [hx]
      simp
    have hpos := List.length_pos_of_mem hmem
    omega
  · have hlt : (S.upgrades.filter (fun u => !(decide (u.completes_at ≤ t)))).length
        < S.upgrades.length :=
      List.length_filter_lt_length_iff_exists.mpr ⟨u, hu, by rw [hc]; simp⟩
    omega

/-! ### The next-event query -/

/-- Characterisation of the candidate pool of `_next_event_time`:
exactly the due-event times in the window `(after, stop]`. -/
theorem mem_eventCandidates (T : WorldState) (after stop u : Int) :
    u ∈ eventCandidates T after stop ↔ after < u ∧ u ≤ stop ∧ dueAt T u := by
  unfold eventCandidates dueAt
  simp only [List.mem_append, List.mem_filterMap]
  constructor
  · rintro ((⟨r, hr, hf⟩ | ⟨r, hr, hf⟩) | ⟨v, hv, hf⟩)
    · by_cases hcnd : (r.status == "enroute" && decide (after < r.arrives_at)
          && decide (r.arrives_at ≤ stop)) = true
      · rw [if_pos hcnd] at hf
        injection hf with hf
        simp only [Bool.and_eq_true, beq_iff_eq, decide_eq_true_eq] at hcnd
        subst hf
        exact ⟨hcnd.1.2, hcnd.2, Or.inl ⟨r, hr, hcnd.1.1, rfl⟩⟩
      · rw [if_neg hcnd] at hf
        cases hf
    · cases hrx : r.returns_at with
      | none =>
        rw [hrx] at hf
        cases hf
      | some x =>
        rw [hrx] at hf
        have hf₂ : (if (r.status == "returning" && decide (after < x)
            && decide (x ≤ stop)) = true then some x else none) = some u := hf
        by_cases hcnd : (r.status == "returning" && decide (after < x)
            && decide (x ≤ stop)) = true
        · rw [if_pos hcnd] at hf₂
          injection hf₂ with hf₂
          simp only [Bool.and_eq_true, beq_iff_eq, decide_eq_true_eq] at hcnd
          subst hf₂
          exact ⟨hcnd.1.2, hcnd.2, Or.inr (Or.inl ⟨r, hr, hcnd.1.1, hrx⟩)⟩
        · rw [if_neg hcnd] at hf₂
          cases hf₂
    · by_cases hcnd : (decide (after < v.completes_at)
          && decide (v.completes_at ≤ stop)) = true
      · rw [if_pos hcnd] at hf
        injection hf with hf
        simp only [Bool.and_eq_true, decide_eq_true_eq] at hcnd
        subst hf
        exact ⟨hcnd.1, hcnd.2, Or.inr (Or.inr ⟨v, hv, rfl⟩)⟩
      · rw [if_neg hcnd] at hf
        cases hf
  · rintro ⟨h1, h2, (⟨r, hr, hst, ha⟩ | ⟨r, hr, hst, hx⟩ | ⟨v, hv, hc⟩)⟩
    · refine Or.inl (Or.inl ⟨r, hr, ?_⟩)
      have hcnd : (r.status == "enroute" && decide (after < r.arrives_at)
          && decide (r.arrives_at ≤ stop)) = true := by
        simp only [Bool.and_eq_true, beq_iff_eq, decide_eq_true_eq]
        exact ⟨⟨hst, by omega⟩, by omega⟩
      rw [if_pos hcnd, ha]
    · refine Or.inl (Or.inr ⟨r, hr, ?_⟩)
      rw [hx]
      have hcnd : (r.status == "returning" && decide (after < u)
          && decide (u ≤ stop)) = true := by
        simp only [Bool.and_eq_true, beq_iff_eq, decide_eq_true_eq]
        exact ⟨⟨hst, h1⟩, h2⟩
      show (if (r.status == "returning" && decide (after < u)
          && decide (u ≤ stop)) = true then some u else none) = some u
      rw [if_pos hcnd]
    · refine Or.inr ⟨v, hv, ?_⟩
      have hcnd : (decide (after < v.completes_at)
          && decide (v.completes_at ≤ stop)) = true := by
        simp only [Bool.and_eq_true, decide_eq_true_eq]
        exact ⟨by omega, by omega⟩
      rw [if_pos hcnd, hc]

/-- `_next_event_time` returns a due-event time in `(after, stop]` that
is minimal among all due-event times in that window. -/
theorem next_event_some (T : WorldState) (after stop t : Int)
    (h : next_event_time T after stop = some t) :
    after < t ∧ t ≤ stop ∧ dueAt T t
      ∧ ∀ u, after < u → u ≤ stop → dueAt T u → t ≤ u := by
  have hmem : t ∈ eventCandidates T after stop :=
    List.min?_mem (fun a b => min_choice a b) h
  have hmin : ∀ b ∈ eventCandidates T after stop, t ≤ b :=
    (List.le_min?_iff (fun a b c => le_min_iff) h).mp (le_refl t)
  obtain ⟨h1, h2, h3⟩ := (mem_eventCandidates T after stop t).mp hmem
  refine ⟨h1, h2, h3, ?_⟩
  intro u hu1 hu2 hud
  exact hmin u ((mem_eventCandidates T after stop u).mpr ⟨hu1, hu2, hud⟩)

/-- `_next_event_time` returns `None` exactly when no event is due in
the window. -/
theorem next_event_none (T : WorldState) (after stop : Int)
    (h : next_event_time T after stop = none) :
    ∀ u, after < u → u ≤ stop → ¬ dueAt T u := by
  intro u h1 h2 hd
  have hnil : eventCandidates T after stop = [] := List.min?_eq_none_iff.mp h
  have hmem : u ∈ eventCandidates T after stop :=
    (mem_eventCandidates T after stop u).mpr ⟨h1, h2, hd⟩
  rw [hnil] at hmem
  exact absurd hmem (List.not_mem_nil u)

/-! ### The starting clock -/

theorem tickStart_fold_le :
    ∀ (L : List City) (s : Int), L.foldl tickStartStep s ≤ s := by
  intro L
  induction L with
  | nil => intro s; exact le_refl s
  | cons z L ih =>
    intro s
    rw [List.foldl_cons]
    refine le_trans (ih _) ?_
    unfold tickStartStep
    cases z.last_tick_at with
    | none => exact le_refl s
    | some l =>
      show (if l < s then l else s) ≤ s
      by_cases h : l < s
      · rw [if_pos h]
        omega
      · rw [if_neg h]

theorem tickStart_fold_le_mem :
    ∀ (L : List City) (s : Int), ∀ c ∈ L, ∀ l, c.last_tick_at = some l →
      L.foldl tickStartStep s ≤ l := by
  intro L
  induction L with
  | nil => intro s c hc; exact absurd hc (List.not_mem_nil c)
  | cons z L ih =>
    intro s c hc l hl
    rw [List.foldl_cons]
    rcases List.mem_cons.mp hc with hzc | hcL
    · subst hzc
      refine le_trans (tickStart_fold_le L _) ?_
      unfold tickStartStep
      rw [hl]
      show (if l < s then l else s) ≤ l
      by_cases h : l < s
      · rw [if_pos h]
      · rw [if_neg h]
        omega
    · exact ih _ c hcL l hl

theorem tickStart_fold_cases :
    ∀ (L : List City) (s : Int),
      L.foldl tickStartStep s = s
        ∨ ∃ c ∈ L, c.last_tick_at = some (L.foldl tickStartStep s) := by
  intro L
  induction L with
  | nil => intro s; exact Or.inl rfl
  | cons z L ih =>
    intro s
    rw [List.foldl_cons]
    rcases ih (tickStartStep s z) with heq | ⟨c, hcL, hc⟩
    · rw [heq]
      unfold tickStartStep
      cases hl : z.last_tick_at with
      | none => exact Or.inl rfl
      | some l =>
        by_cases h : l < s
        · refine Or.inr ⟨z, List.mem_cons_self z L, ?_⟩
          rw [hl]
          show some l = some (if l < s then l else s)
          rw [if_pos h]
        · left
          show (if l < s then l else s) = s
          rw [if_neg h]
    · exact Or.inr ⟨c, List.mem_cons_of_mem z hcL, hc⟩

/-- The effective starting clock never lies in the future. -/
theorem tickStart_le_now (S : WorldState) (now : Int) : tickStart S now ≤ now :=
  tickStart_fold_le S.cities now

/-- The effective starting clock is a lower bound of every set city clock. -/
theorem tickStart_le_last (S : WorldState) (now : Int) :
    ∀ c ∈ S.cities, ∀ l, c.last_tick_at = some l → tickStart S now ≤ l :=
  fun c hc l hl => tickStart_fold_le_mem S.cities now c hc l hl

/-- The effective starting clock is `now` or some city's clock. -/
theorem tickStart_eq_cases (S : WorldState) (now : Int) :
    tickStart S now = now ∨ ∃ c ∈ S.cities, c.last_tick_at = some (tickStart S now) :=
  tickStart_fold_cases S.cities now

/-! ### The scheduler loop -/

/-- Invariant-carrying postcondition of the fuelled loop: with enough
fuel, the loop ends with no due event left, and every city clock is
advanced through event times only, finishing within a minute of `now`
unless it started in the future and was never touched. -/
theorem tickLoop_post :
    ∀ (fuel : Nat) (S : WorldState) (current now : Int) (tot : TickTotals),
      current ≤ now →
      (S.raids.map (fun y => y.id)).Nodup →
      tickMeasure S < fuel →
      noDueLeft (tickLoop fuel S current now tot).1 now
      ∧ ∃ g : Option Int → Option Int,
          lasts (tickLoop fuel S current now tot).1 = (lasts S).map g
          ∧ (∀ o, g o = o ∨ ∃ v, g o = some v ∧ v ≤ now)
          ∧ (∀ o l, g o = some l →
              (l ≤ now ∧ now - l < 60) ∨ (now < l ∧ o = some l)) := by
  intro fuel
  induction fuel with
  | zero => intro S current now tot _ _ hm; exact absurd hm (Nat.not_lt_zero _)
  | succ fuel ih =>
    intro S current now tot hcn hnd hm
    by_cases hterm : now ≤ (next_event_time S current now).getD now
    · have ht : (next_event_time S current now).getD now = now := by
        cases hnx : next_event_time S current now with
        | none => rfl
        | some t₀ =>
          have hle := (next_event_some S current now t₀ hnx).2.1
          rw [hnx, Option.getD_some] at hterm
          rw [Option.getD_some]
          omega
      simp only [tickLoop, ht]
      rw [if_pos (le_refl now)]
      constructor
      · exact step_clears S now
      · exact ⟨advLast now, iter_lasts S now, advLast_bounded now, advLast_final now⟩
    · push_neg at hterm
      cases hnx : next_event_time S current now with
      | none =>
        rw [hnx, Option.getD_none] at hterm
        exact absurd hterm (lt_irrefl now)
      | some t₀ =>
        rw [hnx, Option.getD_some] at hterm
        obtain ⟨hlt1, hle2, hdue, _⟩ := next_event_some S current now t₀ hnx
        simp only [tickLoop, hnx, Option.getD_some]
        rw [if_neg (not_le.mpr hterm)]
        have hndD : ((resolve_returns_to_resolved_at
            (resolve_arrivals_to_returning_at
              (complete_due_upgrades_at (advance_cities S t₀).1 t₀).1 t₀).1 t₀).1.raids.map
              (fun y => y.id)).Nodup := by
          rw [step_raid_ids]
          exact hnd
        have hmD : tickMeasure (resolve_returns_to_resolved_at
            (resolve_arrivals_to_returning_at
              (complete_due_upgrades_at (advance_cities S t₀).1 t₀).1 t₀).1 t₀).1 < fuel := by
          have hstep := step_measure_lt S t₀ hnd hdue
          omega
        have hpost := ih (resolve_returns_to_resolved_at
            (resolve_arrivals_to_returning_at
              (complete_due_upgrades_at (advance_cities S t₀).1 t₀).1 t₀).1 t₀).1 t₀ now
          { total_minutes := tot.total_minutes + (advance_cities S t₀).2.1
            ticked_city_ids := unionIds tot.ticked_city_ids (advance_cities S t₀).2.2
            upgrades_completed := tot.upgrades_completed
              + (complete_due_upgrades_at (advance_cities S t₀).1 t₀).2
            raids_arrived := tot.raids_arrived
              + (resolve_arrivals_to_returning_at
                  (complete_due_upgrades_at (advance_cities S t₀).1 t₀).1 t₀).2
            raids_returned := tot.raids_returned
              + (resolve_returns_to_resolved_at
                  (resolve_arrivals_to_returning_at
                    (complete_due_upgrades_at (advance_cities S t₀).1 t₀).1 t₀).1 t₀).2 }
          (le_of_lt hterm) hndD hmD
        refine ⟨hpost.1, ?_⟩
        obtain ⟨g', hg1, hg2, hg3⟩ := hpost.2
        refine ⟨fun o => g' (advLast t₀ o), ?_, ?_, ?_⟩
        · exact hg1.trans (by
            rw [iter_lasts S t₀, List.map_map]
            exact List.map_congr_left (fun o _ => rfl))
        · intro o
          rcases hg2 (advLast t₀ o) with heq | ⟨v, hv, hvle⟩
          · rcases advLast_bounded t₀ o with h | ⟨v, hv, hvle⟩
            · left
              show g' (advLast t₀ o) = o
              rw [heq, h]
            · right
              exact ⟨v, heq.trans hv, by omega⟩
          · right
            exact ⟨v, hv, hvle⟩
        · intro o l hgl
          rcases hg3 (advLast t₀ o) l hgl with h1 | ⟨hl2, heq⟩
          · exact Or.inl h1
          · rcases advLast_final t₀ o l heq with ⟨hle, _⟩ | ⟨_, ho⟩
            · exact absurd hle (by omega)
            · exact Or.inr ⟨hl2, ho⟩

/-- C1: the tick driver `tick_all_cities(db, now)` starts its clock at
the minimum `last_tick_at` across all cities (or `now` when no city is
behind); its event query returns the minimal due timestamp in
`(current, now]` (and `None` exactly when there is none, meaning a jump
to `now`); the loop resolves every due event — after it finishes no
enroute raid has `arrives_at ≤ now`, no returning raid has
`returns_at ≤ now` and no upgrade has `completes_at ≤ now` — and every
city's production clock is advanced only through the visited event
times, ending within one minute below `now` unless it was already in
the future and is then untouched. -/
theorem claim_C1_tick_driver (S : WorldState) (now : Int)
    (wf : (S.raids.map (fun y => y.id)).Nodup) :
    (tickStart S now ≤ now
      ∧ (∀ c ∈ S.cities, ∀ l, c.last_tick_at = some l → tickStart S now ≤ l)
      ∧ (tickStart S now = now
          ∨ ∃ c ∈ S.cities, c.last_tick_at = some (tickStart S now)))
    ∧ (∀ (T : WorldState) (after stop t : Int), next_event_time T after stop = some t →
        after < t ∧ t ≤ stop ∧ dueAt T t
          ∧ ∀ u, after < u → u ≤ stop → dueAt T u → t ≤ u)
    ∧ (∀ (T : WorldState) (after stop : Int), next_event_time T after stop = none →
        ∀ u, after < u → u ≤ stop → ¬ dueAt T u)
    ∧ noDueLeft (tick_all_cities S now).1 now
    ∧ (∃ g : Option Int → Option Int,
        lasts (tick_all_cities S now).1 = (lasts S).map g
        ∧ (∀ o, g o = o ∨ ∃ v, g o = some v ∧ v ≤ now)
        ∧ (∀ o l, g o = some l →
            (l ≤ now ∧ now - l < 60) ∨ (now < l ∧ o = some l))) := by
  have hpost := tickLoop_post (tickMeasure S + 1) S (tickStart S now) now
    ⟨0, [], 0, 0, 0⟩ (tickStart_le_now S now) wf (Nat.lt_succ_self _)
  exact ⟨⟨tickStart_le_now S now, tickStart_le_last S now, tickStart_eq_cases S now⟩,
    fun T after stop t h => next_event_some T after stop t h,
    fun T after stop h => next_event_none T after stop h,
    hpost.1, hpost.2⟩

/-- The C1 driver theorem instantiated on a concrete world: one due
enroute raid between two live cities, run to `now = 200`. -/
theorem claim_C1_witness :
    (sampleStateRich.raids.map (fun y => y.id)).Nodup
      ∧ noDueLeft (tick_all_cities sampleStateRich 200).1 200 :=
  ⟨by decide, (claim_C1_tick_driver sampleStateRich 200 (by decide)).2.2.2.1⟩

/-! ### The raid state machine under one scheduler pass -/

/-- A city id that occurs in the table is found by `findCity`. -/
theorem findCity_of_mem_ids (S : WorldState) (cid : Nat)
    (h : cid ∈ S.cities.map (fun c => c.id)) : ∃ c, findCity S cid = some c := by
  obtain ⟨c, hc, hcid⟩ := List.mem_map.mp h
  have hsome : (findCity S cid).isSome = true := by
    unfold findCity
    exact List.find?_isSome.mpr ⟨c, hc, by simpa using hcid⟩
  exact Option.isSome_iff_exists.mp hsome

/-- With both cities present, the arrival step rewrites exactly the
processed raid's row to its `returning` update. -/
theorem processArrival_found_raids (S : WorldState) (r : Raid) (t : Int) (a tgt0 : City)
    (hA : findCity S r.attacker_city_id = some a)
    (hT : findCity S r.target_city_id = some tgt0) :
    (processArrival S r t).raids
      = S.raids.map (fun y => if y.id == r.id then
          arrivalRaidUpdate r (proportional_take
            (lootable (refreshStorage S.buildings tgt0)) r.carry_capacity)
          else y) := by
  simp only [processArrival, hA, hT]
  show (updateRaidRow _ r.id _).raids = _
  unfold updateRaidRow
  rw [apply_casualties_raids, mapCityId_raids, mapCityId_raids, mapCityId_raids]

theorem retFold_mem_other (t : Int) :
    ∀ (todo : List Raid) (A : WorldState) (z : Raid), z ∈ A.raids →
      (∀ x ∈ todo, z.id ≠ x.id) →
      z ∈ (todo.foldl (fun acc x => processReturn acc x t) A).raids := by
  intro todo
  induction todo with
  | nil => intro A z hz _; simpa using hz
  | cons x todo ih =>
    intro A z hz hne
    rw [List.foldl_cons]
    exact ih (processReturn A x t) z
      (processReturn_mem_other A x t z hz (hne x (List.mem_cons_self x todo)))
      (fun x₂ hx₂ => hne x₂ (List.mem_cons_of_mem x hx₂))

/-- Every due enroute raid whose two cities exist comes out of the
arrival fold as a `returning` row with its id. -/
theorem arrFold_found (now : Int) (r : Raid) :
    ∀ (todo : List Raid) (A : WorldState),
      (todo.map (fun y => y.id)).Nodup →
      r ∈ todo →
      r.id ∈ A.raids.map (fun y => y.id) →
      r.attacker_city_id ∈ A.cities.map (fun c => c.id) →
      r.target_city_id ∈ A.cities.map (fun c => c.id) →
      ∃ r₂ ∈ (todo.foldl (fun acc x => processArrival acc x now) A).raids,
        r₂.id = r.id ∧ r₂.status = "returning" := by
  intro todo
  induction todo with
  | nil => intro A _ hmem; exact absurd hmem (List.not_mem_nil r)
  | cons x todo ih =>
    intro A hndT hrT hid hcA hcT
    rw [List.map_cons, List.nodup_cons] at hndT
    obtain ⟨hxT, hndT⟩ := hndT
    rw [List.foldl_cons]
    rcases List.mem_cons.mp hrT with hrx | hrT₂
    · subst hrx
      obtain ⟨a, hA⟩ := findCity_of_mem_ids A r.attacker_city_id hcA
      obtain ⟨tgt0, hT⟩ := findCity_of_mem_ids A r.target_city_id hcT
      have hraids := processArrival_found_raids A r now a tgt0 hA hT
      obtain ⟨y, hy, hyid⟩ := List.mem_map.mp hid
      have hvmem : arrivalRaidUpdate r (proportional_take
          (lootable (refreshStorage A.buildings tgt0)) r.carry_capacity)
          ∈ (processArrival A r now).raids := by
        rw [hraids]
        exact List.mem_map.mpr ⟨y, hy, by rw [if_pos (by simpa using hyid)]⟩
      refine ⟨arrivalRaidUpdate r (proportional_take
          (lootable (refreshStorage A.buildings tgt0)) r.carry_capacity), ?_, rfl, rfl⟩
      refine arrFold_mem_other now todo (processArrival A r now) _ hvmem ?_
      intro x₂ hx₂
      show r.id ≠ x₂.id
      intro hcon
      exact hxT (by rw [hcon]; exact List.mem_map_of_mem _ hx₂)
    · refine ih (processArrival A x now) hndT hrT₂ ?_ ?_ ?_
      · rw [processArrival_raid_ids]
        exact hid
      · rw [processArrival_city_ids]
        exact hcA
      · rw [processArrival_city_ids]
        exact hcT

/-- Every due returning raid comes out of the return fold as a
`resolved` row with its id. -/
theorem retFold_found (now : Int) (r : Raid) :
    ∀ (todo : List Raid) (A : WorldState),
      (todo.map (fun y => y.id)).Nodup →
      r ∈ todo →
      r.id ∈ A.raids.map (fun y => y.id) →
      ∃ r₂ ∈ (todo.foldl (fun acc x => processReturn acc x now) A).raids,
        r₂.id = r.id ∧ r₂.status = "resolved" := by
  intro todo
  induction todo with
  | nil => intro A _ hmem; exact absurd hmem (List.not_mem_nil r)
  | cons x todo ih =>
    intro A hndT hrT hid
    rw [List.map_cons, List.nodup_cons] at hndT
    obtain ⟨hxT, hndT⟩ := hndT
    rw [List.foldl_cons]
    rcases List.mem_cons.mp hrT with hrx | hrT₂
    · subst hrx
      obtain ⟨y, hy, hyid⟩ := List.mem_map.mp hid
      have hvmem : ({ r with status := "resolved", resolved_at := some now } : Raid)
          ∈ (processReturn A r now).raids := by
        rw [processReturn_raids]
        unfold updateRaidRow
        exact List.mem_map.mpr ⟨y, hy, by rw [if_pos (by simpa using hyid)]⟩
      refine ⟨{ r with status := "resolved", resolved_at := some now }, ?_, rfl, rfl⟩
      refine retFold_mem_other now todo (processReturn A r now) _ hvmem ?_
      intro x₂ hx₂
      show r.id ≠ x₂.id
      intro hcon
      exact hxT (by rw [hcon]; exact List.mem_map_of_mem _ hx₂)
    · refine ih (processReturn A x now) hndT hrT₂ ?_
      rw [processReturn_raid_ids]
      exact hid

/-- C5 (amended): under distinct raid ids, a scheduler pass at time
`now` moves a due enroute raid to `returning` — not `resolved` —
provided its attacker and target cities exist, and the return pass
moves a due returning raid (non-null `returns_at ≤ now`) to
`resolved`.  (Without the existing-cities proviso the first part is
false: the arrival pass force-resolves a due enroute raid whose
attacker or target city is missing, skipping the `returning` state; see
the counterexample.) -/
theorem claim_C5_amended (S : WorldState) (now : Int) (r : Raid)
    (wf : (S.raids.map (fun y => y.id)).Nodup) (hr : r ∈ S.raids) :
    (r.status = "enroute" → r.arrives_at ≤ now →
      r.attacker_city_id ∈ S.cities.map (fun c => c.id) →
      r.target_city_id ∈ S.cities.map (fun c => c.id) →
      ∃ r₂ ∈ (resolve_arrivals_to_returning_at S now).1.raids,
        r₂.id = r.id ∧ r₂.status = "returning")
    ∧ (r.status = "returning" → (∃ x, r.returns_at = some x ∧ x ≤ now) →
      ∃ r₂ ∈ (resolve_returns_to_resolved_at S now).1.raids,
        r₂.id = r.id ∧ r₂.status = "resolved") := by
  constructor
  · intro hst hdue hcA hcT
    refine arrFold_found now r
      (S.raids.filter (fun x => x.status == "enroute" && decide (x.arrives_at ≤ now)))
      S ?_ ?_ ?_ hcA hcT
    · exact List.Nodup.sublist ((S.raids.filter_sublist).map (fun y => y.id)) wf
    · refine List.mem_filter.mpr ⟨hr, ?_⟩
      simp only [Bool.and_eq_true, beq_iff_eq, decide_eq_true_eq]
      exact ⟨hst, hdue⟩
    · exact List.mem_map_of_mem _ hr
  · rintro hst ⟨x, hx, hxle⟩
    refine retFold_found now r
      (S.raids.filter (fun y => y.status == "returning"
        && match y.returns_at with
           | some z => decide (z ≤ now)
           | none => false))
      S ?_ ?_ ?_
    · exact List.Nodup.sublist ((S.raids.filter_sublist).map (fun y => y.id)) wf
    · refine List.mem_filter.mpr ⟨hr, ?_⟩
      simp only [Bool.and_eq_true, beq_iff_eq]
      refine ⟨hst, ?_⟩
      rw [hx]
      simpa using hxle
    · exact List.mem_map_of_mem _ hr

/-- The amended C5 instantiated: the due enroute raid between the two
live sample cities comes out of the arrival pass as `returning`. -/
theorem claim_C5_witness :
    ((sampleStateRich.raids.map (fun y => y.id)).Nodup
      ∧ sampleRaid ∈ sampleStateRich.raids
      ∧ sampleRaid.status = "enroute" ∧ sampleRaid.arrives_at ≤ 200)
    ∧ ∃ r₂ ∈ (resolve_arrivals_to_returning_at sampleStateRich 200).1.raids,
        r₂.id = sampleRaid.id ∧ r₂.status = "returning" :=
  ⟨⟨by decide, by decide, rfl, by decide⟩,
    (claim_C5_amended sampleStateRich 200 sampleRaid (by decide) (by decide)).1 rfl
      (by decide) (by decide) (by decide)⟩

/-- A due enroute raid whose cities are missing: one arrival pass takes
it straight from `enroute` to `resolved`, skipping `returning` — the
literal claim fails on this input. -/
def skipRaid : Raid := ⟨1, 1, 2, 0, 0, 0, 0, 0, 0, "enroute", 5, 5, 5, none, none⟩

def skipWorld : WorldState := ⟨[], [], [], [skipRaid], [], [], [], [], []⟩

theorem claim_C5_counterexample :
    skipRaid.status = "enroute"
    ∧ skipRaid.arrives_at ≤ 10
    ∧ ((resolve_arrivals_to_returning_at skipWorld 10).1.raids.map
        (fun x => x.status)) = ["resolved"] := by decide

end Evony
